import Mathlib

/-!
Verification of the queue-manager reconciliation engine.

The development embeds the reconciliation engine
(internal/reconciliation/reconciliation.go), the pure parts of the RabbitMQ
provider adapter (internal/queue/rabbitmq/rabbitmq.go) and the periodic
scheduler tick (internal/cron/scheduler.go) as executable Lean definitions,
and proves the documented properties of the system about them.

The six reconciliation loops of the Go code append to disjoint result lists,
issue provider calls, and read only the snapshot maps built before the loops
run, never the mutable result; each loop is therefore embedded as a filter
over its candidate list.  The broker itself is external to the repository and
is modelled from the spec as a state machine over the three observable axes.
-/

namespace QueueManager

/-- Binding triple in the Go convention `[queue, exchange, routingKey]`
(`[3]string` throughout the repository). -/
abbrev Binding := String × String × String

/-- bootstrap.Topology (bootstrap.go): the desired topology loaded from the
database. `exchanges` models the Go `map[string]string` from name to kind as
an association list; `queues` and `bindings` are the Go slices. -/
structure Topology where
  exchanges : List (String × String)
  queues : List String
  bindings : List Binding
deriving Repr, DecidableEq

/-- Names (keys) of the desired exchange map. -/
def Topology.exchangeNames (D : Topology) : List String := D.exchanges.map Prod.fst

/-- Observable broker state on the three axes the engine reconciles. -/
structure Broker where
  exchanges : List String
  queues : List String
  bindings : List Binding
deriving Repr, DecidableEq

/-- A broker state is wellformed when every binding sits on an existing queue. -/
def Broker.Wellformed (A : Broker) : Prop := ∀ t ∈ A.bindings, t.1 ∈ A.queues

/-- reconciliation.ReconciliationResult (reconciliation.go lines 13-21). -/
structure RResult where
  createdExchanges : List String
  createdQueues : List String
  createdBindings : List Binding
  deletedExchanges : List String
  deletedQueues : List String
  deletedBindings : List Binding
  errors : List String
deriving Repr, DecidableEq

/-- The freshly initialized result of reconciliation.go lines 38-46. -/
def emptyResult : RResult := ⟨[], [], [], [], [], [], []⟩

/-- One observable call made during ReconcileTopology: the store read, the three
inventory reads, and the six control-plane mutations of queue.Provider. -/
inductive Call where
  | loadTopology
  | listExchanges
  | listQueues
  | listBindings (queueName : String)
  | declareExchange (name kind : String) (durable : Bool)
  | deleteExchange (name : String)
  | declareQueue (name : String) (durable : Bool)
  | deleteQueue (name : String)
  | bindQueue (queueName exchangeName routingKey : String)
  | unbindQueue (queueName exchangeName routingKey : String)
deriving Repr, DecidableEq

/-- Whether a call is a control-plane mutation. -/
def Call.isMutation : Call → Bool
  | .declareExchange _ _ _ => true
  | .deleteExchange _ => true
  | .declareQueue _ _ => true
  | .deleteQueue _ => true
  | .bindQueue _ _ _ => true
  | .unbindQueue _ _ _ => true
  | _ => false

/-- Whether a call goes to the queue provider (everything except the store read). -/
def Call.isProvider : Call → Bool
  | .loadTopology => false
  | _ => true

/-- Observable behavior of a queue.Provider during one pass: the result of each
inventory read and, for each mutation call, whether it fails (some message) or
succeeds (none). -/
structure Behavior where
  listExchanges : Except String (List String)
  listQueues : Except String (List String)
  listBindings : String → Except String (List Binding)
  mutErr : Call → Option String

/-- Actual exchange list (reconciliation.go lines 65-69), empty on error. -/
def actualExchangesOf (beh : Behavior) : List String :=
  match beh.listExchanges with
  | .ok l => l
  | .error _ => []

/-- Actual queue list (reconciliation.go lines 71-75), empty on error. -/
def actualQueuesOf (beh : Behavior) : List String :=
  match beh.listQueues with
  | .ok l => l
  | .error _ => []

/-- Entry of actualBindingsMap for one queue (reconciliation.go lines 81-97).
The nested map keys each listed binding by the loop queue name together with
its exchange and routing key, deduplicating by construction; a queue whose
ListBindings failed has no entry. -/
def bindingsMapOf (beh : Behavior) (q : String) : List Binding :=
  match beh.listBindings q with
  | .ok bs => (bs.map (fun b => (q, b.2.1, b.2.2))).dedup
  | .error _ => []

/-- Queues having an entry in actualBindingsMap: those of the actual queue list
whose ListBindings succeeded, one map entry per distinct queue name. -/
def snapQueuesOf (beh : Behavior) : List String :=
  (actualQueuesOf beh).dedup.filter (fun q => (beh.listBindings q).isOk)

/-- All triples present in actualBindingsMap. -/
def actualTriplesOf (beh : Behavior) : List Binding :=
  (snapQueuesOf beh).flatMap (bindingsMapOf beh)

/-- Snapshot errors (reconciliation.go lines 65-97), in append order. -/
def snapErrorsOf (beh : Behavior) : List String :=
  (match beh.listExchanges with
   | .ok _ => []
   | .error m => ["failed to list exchanges: " ++ m]) ++
  (match beh.listQueues with
   | .ok _ => []
   | .error m => ["failed to list queues: " ++ m]) ++
  (actualQueuesOf beh).filterMap (fun q =>
    match beh.listBindings q with
    | .ok _ => none
    | .error m => some ("failed to list bindings for queue " ++ q ++ ": " ++ m))

/-- Provider reads issued during the snapshot, in order. -/
def snapshotTraceOf (beh : Behavior) : List Call :=
  [Call.listExchanges, Call.listQueues] ++ (actualQueuesOf beh).map Call.listBindings

/-- Exchanges to create, with the call each one issues (reconciliation.go lines
108-122): desired names absent from the actual exchange map. -/
def exCreateCands (beh : Behavior) (D : Topology) : List (String × Call) :=
  (D.exchanges.filter (fun nk => decide (nk.1 ∉ actualExchangesOf beh))).map
    (fun nk => (nk.1, Call.declareExchange nk.1 nk.2 true))

/-- Exchanges to delete (reconciliation.go lines 125-139): actual names absent
from the desired exchange map. -/
def exDeleteCands (beh : Behavior) (D : Topology) : List (String × Call) :=
  ((actualExchangesOf beh).filter (fun n => decide (n ∉ D.exchangeNames))).map
    (fun n => (n, Call.deleteExchange n))

/-- Queues to create (reconciliation.go lines 147-163). -/
def qCreateCands (beh : Behavior) (D : Topology) : List (String × Call) :=
  (D.queues.filter (fun n => decide (n ∉ actualQueuesOf beh))).map
    (fun n => (n, Call.declareQueue n true))

/-- Queues to delete (reconciliation.go lines 166-180). -/
def qDeleteCands (beh : Behavior) (D : Topology) : List (String × Call) :=
  ((actualQueuesOf beh).filter (fun n => decide (n ∉ D.queues))).map
    (fun n => (n, Call.deleteQueue n))

/-- Bindings to create (reconciliation.go lines 197-226): the desired binding
slice is traversed in order and each triple absent from actualBindingsMap is
bound; the slice is not deduplicated. -/
def bCreateCands (beh : Behavior) (D : Topology) : List (Binding × Call) :=
  (D.bindings.filter (fun t => decide (t ∉ actualTriplesOf beh))).map
    (fun t => (t, Call.bindQueue t.1 t.2.1 t.2.2))

/-- Bindings to delete (reconciliation.go lines 229-264): actualBindingsMap is
traversed, queues not desired are skipped entirely, and each remaining triple
absent from the desired binding set is unbound. -/
def bDeleteCands (beh : Behavior) (D : Topology) : List (Binding × Call) :=
  ((snapQueuesOf beh).filter (fun q => decide (q ∈ D.queues))).flatMap
    (fun q => ((bindingsMapOf beh q).filter (fun t => decide (t ∉ D.bindings))).map
      (fun t => (t, Call.unbindQueue t.1 t.2.1 t.2.2)))

/-- Items recorded in a Created or Deleted list: in dry run every candidate, in
a real run those whose mutation succeeds. -/
def phaseRecorded (beh : Behavior) (dryRun : Bool) (cands : List (α × Call)) : List α :=
  (cands.filter (fun ac => dryRun || (beh.mutErr ac.2).isNone)).map Prod.fst

/-- Error entries a phase appends: none in dry run, one per failed mutation. -/
def phaseErrors (beh : Behavior) (dryRun : Bool) (cands : List (α × Call))
    (emsg : α → String → String) : List String :=
  if dryRun then []
  else cands.filterMap (fun ac => (beh.mutErr ac.2).map (emsg ac.1))

/-- Calls a phase issues: none in dry run. -/
def phaseTrace (dryRun : Bool) (cands : List (α × Call)) : List Call :=
  if dryRun then [] else cands.map Prod.snd

/-- The reconciliation pass of ReconcileTopology after the topology is loaded
(reconciliation.go lines 61-267): snapshot, then the six mutation phases in
their fixed order. Returns the result and the provider calls issued in order. -/
def reconcileCore (beh : Behavior) (D : Topology) (dryRun : Bool) : RResult × List Call :=
  ({ createdExchanges := phaseRecorded beh dryRun (exCreateCands beh D)
     createdQueues := phaseRecorded beh dryRun (qCreateCands beh D)
     createdBindings := phaseRecorded beh dryRun (bCreateCands beh D)
     deletedExchanges := phaseRecorded beh dryRun (exDeleteCands beh D)
     deletedQueues := phaseRecorded beh dryRun (qDeleteCands beh D)
     deletedBindings := phaseRecorded beh dryRun (bDeleteCands beh D)
     errors := snapErrorsOf beh
       ++ phaseErrors beh dryRun (exCreateCands beh D)
            (fun n m => "failed to create exchange " ++ n ++ ": " ++ m)
       ++ phaseErrors beh dryRun (exDeleteCands beh D)
            (fun n m => "failed to delete exchange " ++ n ++ ": " ++ m)
       ++ phaseErrors beh dryRun (qCreateCands beh D)
            (fun n m => "failed to create queue " ++ n ++ ": " ++ m)
       ++ phaseErrors beh dryRun (qDeleteCands beh D)
            (fun n m => "failed to delete queue " ++ n ++ ": " ++ m)
       ++ phaseErrors beh dryRun (bCreateCands beh D)
            (fun t m => "failed to create binding " ++ t.2.1 ++ " -> " ++ t.1
              ++ " (routing key: " ++ t.2.2 ++ "): " ++ m)
       ++ phaseErrors beh dryRun (bDeleteCands beh D)
            (fun t m => "failed to delete binding " ++ t.2.1 ++ " -> " ++ t.1
              ++ " (routing key: " ++ t.2.2 ++ "): " ++ m) },
   snapshotTraceOf beh
     ++ phaseTrace dryRun (exCreateCands beh D)
     ++ phaseTrace dryRun (exDeleteCands beh D)
     ++ phaseTrace dryRun (qCreateCands beh D)
     ++ phaseTrace dryRun (qDeleteCands beh D)
     ++ phaseTrace dryRun (bCreateCands beh D)
     ++ phaseTrace dryRun (bDeleteCands beh D))

/-- reconciliation.ReconcileTopology (reconciliation.go lines 37-268): nil
guards, topology load, then the pass. qpNil and repoNil state whether the
provider and repository arguments are nil; loadRes is the outcome of
bootstrap.LoadTopologyFromDB. Returns the result, the returned error if any,
and the store and provider calls issued in order. -/
def reconcileTopology (qpNil repoNil : Bool) (loadRes : Except String Topology)
    (beh : Behavior) (dryRun : Bool) : RResult × Option String × List Call :=
  if qpNil then (emptyResult, some "queue provider is nil", [])
  else if repoNil then (emptyResult, some "repository is nil", [])
  else
    match loadRes with
    | .error m => (emptyResult, some ("failed to load expected topology: " ++ m), [Call.loadTopology])
    | .ok D =>
      let rc := reconcileCore beh D dryRun
      (rc.1, none, Call.loadTopology :: rc.2)

/-- Modelled from the spec: the broker itself is not part of this repository;
this is the reaction of broker state to one successful provider call.
Declares insert when absent and deletes remove (section 4.2: mutations are
idempotent and deletes of absent resources succeed); deleting a queue removes
its bindings (section 4.4 step 5: bindings attached to a deleted queue are
considered deleted by the broker). The spec states no cascade for exchange
deletion, so none is modelled. Reads leave the state unchanged. -/
def applyCall (b : Broker) : Call → Broker
  | .declareExchange n _ _ =>
      if n ∈ b.exchanges then b else { b with exchanges := b.exchanges ++ [n] }
  | .deleteExchange n =>
      { b with exchanges := b.exchanges.filter (fun x => decide (x ≠ n)) }
  | .declareQueue n _ =>
      if n ∈ b.queues then b else { b with queues := b.queues ++ [n] }
  | .deleteQueue n =>
      { b with queues := b.queues.filter (fun x => decide (x ≠ n)),
               bindings := b.bindings.filter (fun t => decide (t.1 ≠ n)) }
  | .bindQueue q e k =>
      if (q, e, k) ∈ b.bindings then b else { b with bindings := b.bindings ++ [(q, e, k)] }
  | .unbindQueue q e k =>
      { b with bindings := b.bindings.filter (fun t => decide (t ≠ (q, e, k))) }
  | _ => b

/-- Broker state after a pass all of whose issued calls succeeded. -/
def brokerAfter (b : Broker) (calls : List Call) : Broker := calls.foldl applyCall b

/-- The behavior beh reports accurate inventory for broker state A. -/
def Accurate (beh : Behavior) (A : Broker) : Prop :=
  beh.listExchanges = Except.ok A.exchanges ∧
  beh.listQueues = Except.ok A.queues ∧
  ∀ q ∈ A.queues, beh.listBindings q = Except.ok (A.bindings.filter (fun t => decide (t.1 = q)))

/-- Behavior of a provider whose inventory reads report exactly the state of
broker A and whose mutations all succeed. -/
def behOfBroker (A : Broker) : Behavior :=
  { listExchanges := Except.ok A.exchanges
    listQueues := Except.ok A.queues
    listBindings := fun q => Except.ok (A.bindings.filter (fun t => decide (t.1 = q)))
    mutErr := fun _ => none }

/-- rabbitmq.isSystemExchange (rabbitmq.go lines 204-212): the empty (default)
exchange, and names carrying the reserved amq. prefix (the strings.HasPrefix
test is expressed on the character lists). -/
def isSystemExchange (name : String) : Bool :=
  if name = "" then true
  else if "amq.".data.isPrefixOf name.data then true
  else false

/-- Name filtering of the rabbitmq ListExchanges adapter (rabbitmq.go lines
275-283): given the names decoded from the management API response, keep the
non-system ones. -/
def listExchangesNames (decoded : List String) : List String :=
  decoded.filter (fun n => !isSystemExchange n)

/-- rabbitmq DeleteExchange (rabbitmq.go lines 375-399): the system-exchange
guard runs before any HTTP request; httpStatus models the outcome of the HTTP
delete (transport error, or a status code) for non-system names. -/
def deleteExchangeRMQ (name : String) (httpStatus : Except String Nat) : Except String Unit :=
  if isSystemExchange name then Except.error ("cannot delete system exchange: " ++ name)
  else
    match httpStatus with
    | .error m => Except.error ("failed to delete exchange: " ++ m)
    | .ok code =>
      if code = 404 then Except.ok ()
      else if code = 204 || code = 200 then Except.ok ()
      else Except.error ("failed to delete exchange: HTTP " ++ toString code)

/-- Outcome of one periodic scheduler tick. -/
structure TickOutcome where
  reconnectAttempted : Bool
  reconnectFailed : Bool
  ranReconcile : Bool
  reconcileDryRun : Bool
deriving Repr, DecidableEq

/-- One periodic tick of Scheduler.Start (scheduler.go lines 110-148). hsOK is
the Health probe result captured at the top of the tick, connectOk whether
Connect would succeed, repoAvail whether the repository is non-nil. The
reconciliation guard at line 123 reuses the Health result captured before any
reconnect, exactly as the code does; line 124 passes dryRun false. -/
def schedulerTick (hsOK connectOk repoAvail : Bool) : TickOutcome :=
  if !hsOK then
    if !connectOk then
      { reconnectAttempted := true, reconnectFailed := true,
        ranReconcile := false, reconcileDryRun := false }
    else
      { reconnectAttempted := true, reconnectFailed := false,
        ranReconcile := hsOK && repoAvail, reconcileDryRun := false }
  else
    { reconnectAttempted := false, reconnectFailed := false,
      ranReconcile := hsOK && repoAvail, reconcileDryRun := false }

/-! Generic lemmas about the broker state machine. -/

theorem brokerAfter_nil (b : Broker) : brokerAfter b [] = b := rfl

theorem brokerAfter_cons (b : Broker) (c : Call) (l : List Call) :
    brokerAfter b (c :: l) = brokerAfter (applyCall b c) l := rfl

theorem brokerAfter_append (b : Broker) (l1 l2 : List Call) :
    brokerAfter b (l1 ++ l2) = brokerAfter (brokerAfter b l1) l2 :=
  List.foldl_append applyCall b l1 l2

theorem applyCall_read (b : Broker) (c : Call) (h : c.isMutation = false) :
    applyCall b c = b := by
  cases c <;> first | rfl | simp [Call.isMutation] at h

theorem brokerAfter_reads (l : List Call) (h : ∀ c ∈ l, c.isMutation = false) (b : Broker) :
    brokerAfter b l = b := by
  induction l generalizing b with
  | nil => rfl
  | cons c t ih =>
    rw [brokerAfter_cons, applyCall_read b c (h c (List.mem_cons_self c t))]
    exact ih (fun d hd => h d (List.mem_cons_of_mem c hd)) b

theorem snapshotTraceOf_reads (beh : Behavior) :
    ∀ c ∈ snapshotTraceOf beh, c.isMutation = false := by
  intro c hc
  simp only [snapshotTraceOf, List.mem_append, List.mem_map, List.mem_cons,
    List.mem_singleton, List.not_mem_nil] at hc
  rcases hc with (rfl | rfl | h) | ⟨q, _, rfl⟩ <;> simp [Call.isMutation] at *

theorem brokerAfter_map_preserve {α β : Type} (comp : Broker → List β)
    (f : α → Call) (h : ∀ b a, comp (applyCall b (f a)) = comp b)
    (l : List α) (b : Broker) :
    comp (brokerAfter b (l.map f)) = comp b := by
  induction l generalizing b with
  | nil => rfl
  | cons hd tl ih => rw [List.map_cons, brokerAfter_cons, ih, h]

theorem brokerAfter_map_insert {α β : Type} (comp : Broker → List β)
    (f : α → Call) (g : α → β)
    (h : ∀ b a x, x ∈ comp (applyCall b (f a)) ↔ x ∈ comp b ∨ x = g a)
    (l : List α) (b : Broker) (x : β) :
    x ∈ comp (brokerAfter b (l.map f)) ↔ x ∈ comp b ∨ x ∈ l.map g := by
  induction l generalizing b with
  | nil => simp [brokerAfter_nil]
  | cons hd tl ih =>
    rw [List.map_cons, brokerAfter_cons, ih, h b hd x, List.map_cons, List.mem_cons]
    tauto

theorem brokerAfter_map_remove {α β : Type} (comp : Broker → List β)
    (f : α → Call) (P : α → β → Prop)
    (h : ∀ b a x, x ∈ comp (applyCall b (f a)) ↔ x ∈ comp b ∧ ¬ P a x)
    (l : List α) (b : Broker) (x : β) :
    x ∈ comp (brokerAfter b (l.map f)) ↔ x ∈ comp b ∧ ∀ a ∈ l, ¬ P a x := by
  induction l generalizing b with
  | nil => simp [brokerAfter_nil]
  | cons hd tl ih =>
    rw [List.map_cons, brokerAfter_cons, ih, h b hd x]
    constructor
    · rintro ⟨⟨hb, hhd⟩, htl⟩
      refine ⟨hb, ?_⟩
      intro a ha
      rcases List.mem_cons.mp ha with rfl | ha
      · exact hhd
      · exact htl a ha
    · rintro ⟨hb, hall⟩
      exact ⟨⟨hb, hall hd (List.mem_cons_self hd tl)⟩,
        fun a ha => hall a (List.mem_cons_of_mem hd ha)⟩

/-! Effect of each mutation shape on the broker components. -/

theorem applyCall_declareExchange_queues (b : Broker) (nk : String × String) :
    (applyCall b (Call.declareExchange nk.1 nk.2 true)).queues = b.queues := by
  simp only [applyCall]
  split <;> rfl

theorem applyCall_declareExchange_bindings (b : Broker) (nk : String × String) :
    (applyCall b (Call.declareExchange nk.1 nk.2 true)).bindings = b.bindings := by
  simp only [applyCall]
  split <;> rfl

theorem applyCall_declareExchange_exchanges (b : Broker) (nk : String × String) (x : String) :
    x ∈ (applyCall b (Call.declareExchange nk.1 nk.2 true)).exchanges ↔
      x ∈ b.exchanges ∨ x = nk.1 := by
  by_cases hmem : nk.1 ∈ b.exchanges
  · simp only [applyCall, if_pos hmem]
    exact ⟨Or.inl, fun h => h.elim id (fun he => he ▸ hmem)⟩
  · simp [applyCall, if_neg hmem]

theorem applyCall_deleteExchange_queues (b : Broker) (n : String) :
    (applyCall b (Call.deleteExchange n)).queues = b.queues := rfl

theorem applyCall_deleteExchange_bindings (b : Broker) (n : String) :
    (applyCall b (Call.deleteExchange n)).bindings = b.bindings := rfl

theorem applyCall_deleteExchange_exchanges (b : Broker) (n : String) (x : String) :
    x ∈ (applyCall b (Call.deleteExchange n)).exchanges ↔ x ∈ b.exchanges ∧ ¬ (x = n) := by
  simp [applyCall, List.mem_filter]

theorem applyCall_declareQueue_exchanges (b : Broker) (n : String) :
    (applyCall b (Call.declareQueue n true)).exchanges = b.exchanges := by
  simp only [applyCall]
  split <;> rfl

theorem applyCall_declareQueue_bindings (b : Broker) (n : String) :
    (applyCall b (Call.declareQueue n true)).bindings = b.bindings := by
  simp only [applyCall]
  split <;> rfl

theorem applyCall_declareQueue_queues (b : Broker) (n : String) (x : String) :
    x ∈ (applyCall b (Call.declareQueue n true)).queues ↔ x ∈ b.queues ∨ x = n := by
  by_cases hmem : n ∈ b.queues
  · simp only [applyCall, if_pos hmem]
    exact ⟨Or.inl, fun h => h.elim id (fun he => he ▸ hmem)⟩
  · simp [applyCall, if_neg hmem]

theorem applyCall_deleteQueue_exchanges (b : Broker) (n : String) :
    (applyCall b (Call.deleteQueue n)).exchanges = b.exchanges := rfl

theorem applyCall_deleteQueue_queues (b : Broker) (n : String) (x : String) :
    x ∈ (applyCall b (Call.deleteQueue n)).queues ↔ x ∈ b.queues ∧ ¬ (x = n) := by
  simp [applyCall, List.mem_filter]

theorem applyCall_deleteQueue_bindings (b : Broker) (n : String) (t : Binding) :
    t ∈ (applyCall b (Call.deleteQueue n)).bindings ↔ t ∈ b.bindings ∧ ¬ (t.1 = n) := by
  simp [applyCall, List.mem_filter]

theorem applyCall_bindQueue_exchanges (b : Broker) (s : Binding) :
    (applyCall b (Call.bindQueue s.1 s.2.1 s.2.2)).exchanges = b.exchanges := by
  simp only [applyCall]
  split <;> rfl

theorem applyCall_bindQueue_queues (b : Broker) (s : Binding) :
    (applyCall b (Call.bindQueue s.1 s.2.1 s.2.2)).queues = b.queues := by
  simp only [applyCall]
  split <;> rfl

theorem applyCall_bindQueue_bindings (b : Broker) (s : Binding) (t : Binding) :
    t ∈ (applyCall b (Call.bindQueue s.1 s.2.1 s.2.2)).bindings ↔ t ∈ b.bindings ∨ t = s := by
  by_cases hmem : (s.1, s.2.1, s.2.2) ∈ b.bindings
  · simp only [applyCall, if_pos hmem]
    constructor
    · exact Or.inl
    · rintro (h | rfl)
      · exact h
      · simpa using hmem
  · simp only [applyCall, if_neg hmem, List.mem_append, List.mem_singleton]

theorem applyCall_unbindQueue_exchanges (b : Broker) (s : Binding) :
    (applyCall b (Call.unbindQueue s.1 s.2.1 s.2.2)).exchanges = b.exchanges := rfl

theorem applyCall_unbindQueue_queues (b : Broker) (s : Binding) :
    (applyCall b (Call.unbindQueue s.1 s.2.1 s.2.2)).queues = b.queues := rfl

theorem applyCall_unbindQueue_bindings (b : Broker) (s : Binding) (t : Binding) :
    t ∈ (applyCall b (Call.unbindQueue s.1 s.2.1 s.2.2)).bindings ↔
      t ∈ b.bindings ∧ ¬ (t = s) := by
  simp [applyCall, List.mem_filter]

/-! Accuracy lemmas: what the snapshot looks like for a faithful provider. -/

theorem actualExchangesOf_acc {beh : Behavior} {A : Broker} (h : Accurate beh A) :
    actualExchangesOf beh = A.exchanges := by
  simp [actualExchangesOf, h.1]

theorem actualQueuesOf_acc {beh : Behavior} {A : Broker} (h : Accurate beh A) :
    actualQueuesOf beh = A.queues := by
  simp [actualQueuesOf, h.2.1]

theorem bindingsMapOf_acc {beh : Behavior} {A : Broker} (h : Accurate beh A)
    {q : String} (hq : q ∈ A.queues) :
    bindingsMapOf beh q = (A.bindings.filter (fun t => decide (t.1 = q))).dedup := by
  have hmap : (A.bindings.filter (fun t => decide (t.1 = q))).map
      (fun b => (q, b.2.1, b.2.2)) = A.bindings.filter (fun t => decide (t.1 = q)) := by
    have : ∀ b ∈ A.bindings.filter (fun t => decide (t.1 = q)),
        (fun b => ((q, b.2.1, b.2.2) : Binding)) b = id b := by
      intro b hb
      have hbq : b.1 = q := by
        have := (List.mem_filter.mp hb).2
        simpa using this
      simp [← hbq]
    rw [List.map_congr_left this, List.map_id]
  simp [bindingsMapOf, h.2.2 q hq, hmap]

theorem snapQueuesOf_acc {beh : Behavior} {A : Broker} (h : Accurate beh A) :
    snapQueuesOf beh = A.queues.dedup := by
  rw [snapQueuesOf, actualQueuesOf_acc h]
  apply List.filter_eq_self.mpr
  intro q hq
  rw [h.2.2 q (List.mem_dedup.mp hq)]
  rfl

theorem mem_actualTriplesOf_acc {beh : Behavior} {A : Broker} (h : Accurate beh A)
    (hWf : A.Wellformed) (t : Binding) :
    t ∈ actualTriplesOf beh ↔ t ∈ A.bindings := by
  rw [actualTriplesOf, snapQueuesOf_acc h]
  simp only [List.mem_flatMap, List.mem_dedup]
  constructor
  · rintro ⟨q, hq, ht⟩
    rw [bindingsMapOf_acc h hq] at ht
    exact (List.mem_filter.mp (List.mem_dedup.mp ht)).1
  · intro ht
    refine ⟨t.1, hWf t ht, ?_⟩
    rw [bindingsMapOf_acc h (hWf t ht)]
    rw [List.mem_dedup, List.mem_filter]
    exact ⟨ht, by simp⟩

theorem snapErrorsOf_acc {beh : Behavior} {A : Broker} (h : Accurate beh A) :
    snapErrorsOf beh = [] := by
  rw [snapErrorsOf, h.1, h.2.1]
  simp only [List.nil_append, actualQueuesOf]
  rw [List.filterMap_eq_nil_iff.mpr]
  intro q hq
  rw [h.2.2 q (by simpa [actualQueuesOf, h.2.1] using hq)]

/-! Shape of the call trace of a real (non-dry) pass. -/

/-- The binding triples traversed by the delete-extra-bindings phase. -/
def bDeleteList (beh : Behavior) (D : Topology) : List Binding :=
  ((snapQueuesOf beh).filter (fun q => decide (q ∈ D.queues))).flatMap
    (fun q => (bindingsMapOf beh q).filter (fun t => decide (t ∉ D.bindings)))

theorem bDeleteCands_eq (beh : Behavior) (D : Topology) :
    bDeleteCands beh D
      = (bDeleteList beh D).map (fun t => (t, Call.unbindQueue t.1 t.2.1 t.2.2)) := by
  rw [bDeleteCands, bDeleteList, List.map_flatMap]

theorem trace_real (beh : Behavior) (D : Topology) :
    (reconcileCore beh D false).2
      = snapshotTraceOf beh
        ++ (D.exchanges.filter (fun nk => decide (nk.1 ∉ actualExchangesOf beh))).map
             (fun nk => Call.declareExchange nk.1 nk.2 true)
        ++ ((actualExchangesOf beh).filter (fun n => decide (n ∉ D.exchangeNames))).map
             (fun n => Call.deleteExchange n)
        ++ (D.queues.filter (fun n => decide (n ∉ actualQueuesOf beh))).map
             (fun n => Call.declareQueue n true)
        ++ ((actualQueuesOf beh).filter (fun n => decide (n ∉ D.queues))).map
             (fun n => Call.deleteQueue n)
        ++ (D.bindings.filter (fun t => decide (t ∉ actualTriplesOf beh))).map
             (fun t => Call.bindQueue t.1 t.2.1 t.2.2)
        ++ (bDeleteList beh D).map
             (fun t => Call.unbindQueue t.1 t.2.1 t.2.2) := by
  show snapshotTraceOf beh
      ++ phaseTrace false (exCreateCands beh D)
      ++ phaseTrace false (exDeleteCands beh D)
      ++ phaseTrace false (qCreateCands beh D)
      ++ phaseTrace false (qDeleteCands beh D)
      ++ phaseTrace false (bCreateCands beh D)
      ++ phaseTrace false (bDeleteCands beh D) = _
  rw [bDeleteCands_eq]
  simp only [phaseTrace, if_neg (by simp : ¬ (false : Bool) = true),
    exCreateCands, exDeleteCands, qCreateCands, qDeleteCands, bCreateCands, List.map_map]
  rfl

/-! Broker state after one real pass against an accurate snapshot. -/

theorem reconcile_exchanges_mem (beh : Behavior) (A : Broker) (D : Topology)
    (hAcc : Accurate beh A) (x : String) :
    x ∈ (brokerAfter A (reconcileCore beh D false).2).exchanges ↔ x ∈ D.exchangeNames := by
  rw [trace_real, brokerAfter_append, brokerAfter_append, brokerAfter_append,
    brokerAfter_append, brokerAfter_append, brokerAfter_append,
    brokerAfter_reads (snapshotTraceOf beh) (snapshotTraceOf_reads beh) A]
  rw [brokerAfter_map_preserve Broker.exchanges _ applyCall_unbindQueue_exchanges,
    brokerAfter_map_preserve Broker.exchanges _ applyCall_bindQueue_exchanges,
    brokerAfter_map_preserve Broker.exchanges _ applyCall_deleteQueue_exchanges,
    brokerAfter_map_preserve Broker.exchanges _ applyCall_declareQueue_exchanges]
  rw [brokerAfter_map_remove Broker.exchanges _ (fun n x => x = n)
    applyCall_deleteExchange_exchanges]
  rw [brokerAfter_map_insert Broker.exchanges _ Prod.fst
    applyCall_declareExchange_exchanges]
  rw [actualExchangesOf_acc hAcc]
  constructor
  · rintro ⟨hin, hdel⟩
    rcases hin with hA | hc
    · by_contra hxD
      exact hdel x (List.mem_filter.mpr ⟨hA, by simpa using hxD⟩) rfl
    · rcases List.mem_map.mp hc with ⟨nk, hnk, rfl⟩
      exact List.mem_map.mpr ⟨nk, (List.mem_filter.mp hnk).1, rfl⟩
  · intro hxD
    refine ⟨?_, ?_⟩
    · by_cases hA : x ∈ A.exchanges
      · exact Or.inl hA
      · refine Or.inr ?_
        rcases List.mem_map.mp hxD with ⟨nk, hnk, rfl⟩
        exact List.mem_map.mpr ⟨nk, List.mem_filter.mpr ⟨hnk, by simpa using hA⟩, rfl⟩
    · intro n hn he
      subst he
      exact (by simpa using (List.mem_filter.mp hn).2 : x ∉ D.exchangeNames) hxD

theorem reconcile_queues_mem (beh : Behavior) (A : Broker) (D : Topology)
    (hAcc : Accurate beh A) (q : String) :
    q ∈ (brokerAfter A (reconcileCore beh D false).2).queues ↔ q ∈ D.queues := by
  rw [trace_real, brokerAfter_append, brokerAfter_append, brokerAfter_append,
    brokerAfter_append, brokerAfter_append, brokerAfter_append,
    brokerAfter_reads (snapshotTraceOf beh) (snapshotTraceOf_reads beh) A]
  rw [brokerAfter_map_preserve Broker.queues _ applyCall_unbindQueue_queues,
    brokerAfter_map_preserve Broker.queues _ applyCall_bindQueue_queues]
  rw [brokerAfter_map_remove Broker.queues _ (fun n x => x = n)
    applyCall_deleteQueue_queues]
  rw [brokerAfter_map_insert Broker.queues _ (fun n => n)
    applyCall_declareQueue_queues]
  rw [brokerAfter_map_preserve Broker.queues _ applyCall_deleteExchange_queues,
    brokerAfter_map_preserve Broker.queues _ applyCall_declareExchange_queues]
  rw [actualQueuesOf_acc hAcc]
  have hmapself : (D.queues.filter (fun n => decide (n ∉ A.queues))).map (fun n => n)
      = D.queues.filter (fun n => decide (n ∉ A.queues)) := by simp
  rw [hmapself]
  constructor
  · rintro ⟨hin, hdel⟩
    rcases hin with hA | hc
    · by_contra hqD
      exact hdel q (List.mem_filter.mpr ⟨hA, by simpa using hqD⟩) rfl
    · exact (List.mem_filter.mp hc).1
  · intro hqD
    refine ⟨?_, ?_⟩
    · by_cases hA : q ∈ A.queues
      · exact Or.inl hA
      · exact Or.inr (List.mem_filter.mpr ⟨hqD, by simpa using hA⟩)
    · intro n hn he
      subst he
      exact (by simpa using (List.mem_filter.mp hn).2 : q ∉ D.queues) hqD

theorem mem_bDeleteList_acc {beh : Behavior} {A : Broker} (D : Topology)
    (hAcc : Accurate beh A) (hWf : A.Wellformed) (t : Binding) :
    t ∈ bDeleteList beh D ↔ t ∈ A.bindings ∧ t.1 ∈ D.queues ∧ t ∉ D.bindings := by
  rw [bDeleteList, snapQueuesOf_acc hAcc]
  constructor
  · intro h
    rcases List.mem_flatMap.mp h with ⟨q, hq, ht⟩
    have hq2 := List.mem_filter.mp hq
    have hqA : q ∈ A.queues := List.mem_dedup.mp hq2.1
    have hqD : q ∈ D.queues := by simpa using hq2.2
    rw [bindingsMapOf_acc hAcc hqA] at ht
    have ht2 := List.mem_filter.mp ht
    have htA := List.mem_filter.mp (List.mem_dedup.mp ht2.1)
    refine ⟨htA.1, ?_, by simpa using ht2.2⟩
    have heq : t.1 = q := by simpa using htA.2
    rw [heq]
    exact hqD
  · rintro ⟨htA, htD, htnD⟩
    refine List.mem_flatMap.mpr ⟨t.1, ?_, ?_⟩
    · exact List.mem_filter.mpr ⟨List.mem_dedup.mpr (hWf t htA), by simpa using htD⟩
    · rw [bindingsMapOf_acc hAcc (hWf t htA)]
      exact List.mem_filter.mpr
        ⟨List.mem_dedup.mpr (List.mem_filter.mpr ⟨htA, by simp⟩), by simpa using htnD⟩

theorem reconcile_bindings_mem (beh : Behavior) (A : Broker) (D : Topology)
    (hAcc : Accurate beh A) (hWf : A.Wellformed) (t : Binding) :
    t ∈ (brokerAfter A (reconcileCore beh D false).2).bindings ↔
      ((t ∈ A.bindings ∧ t.1 ∈ D.queues ∧ t ∈ D.bindings) ∨
        (t ∈ D.bindings ∧ t ∉ A.bindings)) := by
  rw [trace_real, brokerAfter_append, brokerAfter_append, brokerAfter_append,
    brokerAfter_append, brokerAfter_append, brokerAfter_append,
    brokerAfter_reads (snapshotTraceOf beh) (snapshotTraceOf_reads beh) A]
  rw [brokerAfter_map_remove Broker.bindings _ (fun s u => u = s)
    applyCall_unbindQueue_bindings]
  rw [brokerAfter_map_insert Broker.bindings _ id applyCall_bindQueue_bindings]
  rw [brokerAfter_map_remove Broker.bindings _ (fun n u => u.1 = n)
    applyCall_deleteQueue_bindings]
  rw [brokerAfter_map_preserve Broker.bindings _ applyCall_declareQueue_bindings,
    brokerAfter_map_preserve Broker.bindings _ applyCall_deleteExchange_bindings,
    brokerAfter_map_preserve Broker.bindings _ applyCall_declareExchange_bindings]
  rw [actualQueuesOf_acc hAcc, List.map_id]
  have h1 : (∀ n ∈ A.queues.filter (fun n => decide (n ∉ D.queues)), ¬ t.1 = n) ↔
      (t.1 ∉ A.queues ∨ t.1 ∈ D.queues) := by
    constructor
    · intro h
      by_cases hA : t.1 ∈ A.queues
      · by_cases hD : t.1 ∈ D.queues
        · exact Or.inr hD
        · exact absurd rfl (h t.1 (List.mem_filter.mpr ⟨hA, by simpa using hD⟩))
      · exact Or.inl hA
    · intro h n hn he
      have hn2 := List.mem_filter.mp hn
      have hnD : n ∉ D.queues := by simpa using hn2.2
      rcases h with hA | hD
      · exact hA (he ▸ hn2.1)
      · exact hnD (he ▸ hD)
  have h2 : t ∈ D.bindings.filter (fun s => decide (s ∉ actualTriplesOf beh)) ↔
      (t ∈ D.bindings ∧ t ∉ A.bindings) := by
    simp only [List.mem_filter, decide_eq_true_eq]
    rw [mem_actualTriplesOf_acc hAcc hWf]
  have h3 : (∀ s ∈ bDeleteList beh D, ¬ t = s) ↔
      ¬ (t ∈ A.bindings ∧ t.1 ∈ D.queues ∧ t ∉ D.bindings) := by
    rw [← mem_bDeleteList_acc D hAcc hWf t]
    constructor
    · intro h hmem
      exact h t hmem rfl
    · intro h s hs he
      exact h (he ▸ hs)
  rw [h1, h2, h3]
  have hPS : t ∈ A.bindings → t.1 ∈ A.queues := hWf t
  tauto

/-! Accuracy of the canonical faithful provider behavior. -/

theorem behOfBroker_accurate (A : Broker) : Accurate (behOfBroker A) A :=
  ⟨rfl, rfl, fun _ _ => rfl⟩

/-! Concrete instances used by counterexamples and witnesses. -/

/-- Desired topology containing a binding whose queue is not desired. -/
def cxD : Topology := ⟨[], [], [("q", "e", "k")]⟩

/-- Actual broker state holding that same binding on an existing queue. -/
def cxA : Broker := ⟨[], ["q"], [("q", "e", "k")]⟩

/-- First pass of the counterexample scenario. -/
def cxRun1 : RResult × Option String × List Call :=
  reconcileTopology false false (Except.ok cxD) (behOfBroker cxA) false

/-- Broker state after the first counterexample pass. -/
def cxB1 : Broker := brokerAfter cxA cxRun1.2.2

/-- Second pass of the counterexample scenario, snapshotting the state produced
by the first. -/
def cxRun2 : RResult × Option String × List Call :=
  reconcileTopology false false (Except.ok cxD) (behOfBroker cxB1) false

/-- Small desired topology for witnesses. -/
def wD : Topology := ⟨[("ex1", "topic")], ["q1"], [("q1", "ex1", "k1")]⟩

/-- Small drifted actual state for witnesses. -/
def wA : Broker := ⟨["oldx"], ["oldq"], [("oldq", "oldx", "")]⟩

/-- Pass of the witness scenario. -/
def wRun : RResult × Option String × List Call :=
  reconcileTopology false false (Except.ok wD) (behOfBroker wA) false

/-- C1: as frozen, the convergence claim quantifies over every desired topology;
it fails when the desired binding list references a queue that is not in the
desired queue list. Here the pass deletes queue q, the broker cascades the
binding away, the engine never re-binds it because the snapshot showed it
present, every mutation succeeds and the error list is empty, yet the final
binding set differs from the desired one. -/
theorem C1_claim_counterexample :
    cxRun1.1.errors = [] ∧
    (∀ t ∈ cxA.bindings, t.1 ∈ cxA.queues) ∧
    ¬ ((("q", "e", "k") ∈ cxB1.bindings) ↔ (("q", "e", "k") ∈ cxD.bindings)) := by
  refine ⟨by decide, ?_, by decide⟩
  intro t ht
  rw [show cxA.bindings = [("q", "e", "k")] from rfl, List.mem_singleton] at ht
  subst ht
  decide

/-- C1 (amended): for every desired topology whose bindings reference only
desired queues, and every wellformed actual state, one real reconciliation
against an accurate snapshot in which every issued mutation succeeds (empty
error list) leaves the broker equal to the desired topology on the exchange
set, the queue set and the binding triple set. -/
theorem C1_convergence (beh : Behavior) (A : Broker) (D : Topology)
    (hAcc : Accurate beh A) (hWf : A.Wellformed)
    (hQC : ∀ t ∈ D.bindings, t.1 ∈ D.queues)
    (hE : (reconcileTopology false false (Except.ok D) beh false).1.errors = []) :
    (∀ x, x ∈ (brokerAfter A (reconcileTopology false false (Except.ok D) beh false).2.2).exchanges
      ↔ x ∈ D.exchangeNames) ∧
    (∀ q, q ∈ (brokerAfter A (reconcileTopology false false (Except.ok D) beh false).2.2).queues
      ↔ q ∈ D.queues) ∧
    (∀ t : Binding,
      t ∈ (brokerAfter A (reconcileTopology false false (Except.ok D) beh false).2.2).bindings
      ↔ t ∈ D.bindings) := by
  have houter : brokerAfter A (reconcileTopology false false (Except.ok D) beh false).2.2
      = brokerAfter A (reconcileCore beh D false).2 := rfl
  rw [houter]
  refine ⟨fun x => reconcile_exchanges_mem beh A D hAcc x,
    fun q => reconcile_queues_mem beh A D hAcc q, fun t => ?_⟩
  rw [reconcile_bindings_mem beh A D hAcc hWf t]
  constructor
  · rintro (⟨_, _, h⟩ | ⟨h, _⟩) <;> exact h
  · intro h
    by_cases hA : t ∈ A.bindings
    · exact Or.inl ⟨hA, hQC t h, h⟩
    · exact Or.inr ⟨h, hA⟩

/-- C1 witness: the amended convergence theorem applied to a concrete drifted
scenario. -/
theorem C1_convergence_witness :
    ("ex1" ∈ (brokerAfter wA wRun.2.2).exchanges ↔ "ex1" ∈ wD.exchangeNames) ∧
    ("oldq" ∈ (brokerAfter wA wRun.2.2).queues ↔ "oldq" ∈ wD.queues) ∧
    ((("q1", "ex1", "k1") : Binding) ∈ (brokerAfter wA wRun.2.2).bindings
      ↔ (("q1", "ex1", "k1") : Binding) ∈ wD.bindings) := by
  have hWf : wA.Wellformed := by
    intro t ht
    rw [show wA.bindings = [("oldq", "oldx", "")] from rfl, List.mem_singleton] at ht
    subst ht
    decide
  have hQC : ∀ t ∈ wD.bindings, t.1 ∈ wD.queues := by
    intro t ht
    rw [show wD.bindings = [("q1", "ex1", "k1")] from rfl, List.mem_singleton] at ht
    subst ht
    decide
  have h := C1_convergence (behOfBroker wA) wA wD (behOfBroker_accurate wA) hWf hQC (by decide)
  exact ⟨h.1 "ex1", h.2.1 "oldq", h.2.2 ("q1", "ex1", "k1")⟩

/-! A pass taken against a state that already equals the desired topology on all
three axes computes an empty diff and issues no mutation. -/

theorem reconcile_empty_diff (beh : Behavior) (B : Broker) (D : Topology) (dryRun : Bool)
    (hAcc : Accurate beh B)
    (hX : ∀ x, x ∈ B.exchanges ↔ x ∈ D.exchangeNames)
    (hQ : ∀ q, q ∈ B.queues ↔ q ∈ D.queues)
    (hB : ∀ t : Binding, t ∈ B.bindings ↔ t ∈ D.bindings)
    (hQC : ∀ t ∈ D.bindings, t.1 ∈ D.queues) :
    (reconcileCore beh D dryRun).1 = emptyResult ∧
    (∀ c ∈ (reconcileCore beh D dryRun).2, c.isMutation = false) := by
  have hWfB : B.Wellformed := fun t ht => (hQ t.1).mpr (hQC t ((hB t).mp ht))
  have e1 : exCreateCands beh D = [] := by
    rw [exCreateCands, actualExchangesOf_acc hAcc]
    have : D.exchanges.filter (fun nk => decide (nk.1 ∉ B.exchanges)) = [] := by
      refine List.filter_eq_nil_iff.mpr ?_
      intro nk hnk
      simp only [decide_eq_true_eq, not_not]
      exact (hX nk.1).mpr (List.mem_map.mpr ⟨nk, hnk, rfl⟩)
    rw [this, List.map_nil]
  have e2 : exDeleteCands beh D = [] := by
    rw [exDeleteCands, actualExchangesOf_acc hAcc]
    have : B.exchanges.filter (fun n => decide (n ∉ D.exchangeNames)) = [] := by
      refine List.filter_eq_nil_iff.mpr ?_
      intro n hn
      simp only [decide_eq_true_eq, not_not]
      exact (hX n).mp hn
    rw [this, List.map_nil]
  have e3 : qCreateCands beh D = [] := by
    rw [qCreateCands, actualQueuesOf_acc hAcc]
    have : D.queues.filter (fun n => decide (n ∉ B.queues)) = [] := by
      refine List.filter_eq_nil_iff.mpr ?_
      intro n hn
      simp only [decide_eq_true_eq, not_not]
      exact (hQ n).mpr hn
    rw [this, List.map_nil]
  have e4 : qDeleteCands beh D = [] := by
    rw [qDeleteCands, actualQueuesOf_acc hAcc]
    have : B.queues.filter (fun n => decide (n ∉ D.queues)) = [] := by
      refine List.filter_eq_nil_iff.mpr ?_
      intro n hn
      simp only [decide_eq_true_eq, not_not]
      exact (hQ n).mp hn
    rw [this, List.map_nil]
  have e5 : bCreateCands beh D = [] := by
    rw [bCreateCands]
    have : D.bindings.filter (fun t => decide (t ∉ actualTriplesOf beh)) = [] := by
      refine List.filter_eq_nil_iff.mpr ?_
      intro t ht
      simp only [decide_eq_true_eq, not_not]
      exact (mem_actualTriplesOf_acc hAcc hWfB t).mpr ((hB t).mpr ht)
    rw [this, List.map_nil]
  have e6 : bDeleteCands beh D = [] := by
    rw [bDeleteCands_eq]
    have : bDeleteList beh D = [] := by
      refine List.eq_nil_iff_forall_not_mem.mpr ?_
      intro t ht
      rcases (mem_bDeleteList_acc D hAcc hWfB t).mp ht with ⟨htB, _, htnD⟩
      exact htnD ((hB t).mp htB)
    rw [this, List.map_nil]
  constructor
  · simp only [reconcileCore, e1, e2, e3, e4, e5, e6, snapErrorsOf_acc hAcc,
      phaseRecorded, phaseErrors, phaseTrace, List.filter_nil, List.map_nil,
      List.filterMap_nil, List.append_nil, List.nil_append, ite_self, emptyResult]
  · intro c hc
    have hc2 : c ∈ snapshotTraceOf beh
        ++ phaseTrace dryRun (exCreateCands beh D)
        ++ phaseTrace dryRun (exDeleteCands beh D)
        ++ phaseTrace dryRun (qCreateCands beh D)
        ++ phaseTrace dryRun (qDeleteCands beh D)
        ++ phaseTrace dryRun (bCreateCands beh D)
        ++ phaseTrace dryRun (bDeleteCands beh D) := hc
    rw [e1, e2, e3, e4, e5, e6] at hc2
    simp only [phaseTrace, List.map_nil, ite_self, List.append_nil] at hc2
    exact snapshotTraceOf_reads beh c hc2

/-- C2: as frozen, the idempotence claim fails on the same desired topology as
the convergence claim. The first pass is successful and deletes queue q; its
snapshot-accurate successor still sees the desired binding as missing (the
broker cascaded it away), so the second pass records a created binding and
issues a BindQueue mutation. -/
theorem C2_claim_counterexample :
    cxRun1.1.errors = [] ∧
    cxRun2.1.createdBindings = [("q", "e", "k")] ∧
    Call.bindQueue "q" "e" "k" ∈ cxRun2.2.2 := by
  refine ⟨by decide, by decide, by decide⟩

/-- C2 (amended): for every desired topology whose bindings reference only
desired queues, after a first successful real pass from a wellformed actual
state, a second pass snapshotting the produced state accurately computes an
empty result (all six Created and Deleted lists and the error list empty) and
issues zero mutations. -/
theorem C2_idempotence (beh1 beh2 : Behavior) (A : Broker) (D : Topology)
    (hAcc1 : Accurate beh1 A) (hWf : A.Wellformed)
    (hQC : ∀ t ∈ D.bindings, t.1 ∈ D.queues)
    (hE : (reconcileTopology false false (Except.ok D) beh1 false).1.errors = [])
    (hAcc2 : Accurate beh2
      (brokerAfter A (reconcileTopology false false (Except.ok D) beh1 false).2.2)) :
    (reconcileTopology false false (Except.ok D) beh2 false).1 = emptyResult ∧
    ∀ c ∈ (reconcileTopology false false (Except.ok D) beh2 false).2.2,
      c.isMutation = false := by
  have h := C1_convergence beh1 A D hAcc1 hWf hQC hE
  have hcore := reconcile_empty_diff beh2 _ D false hAcc2 h.1 h.2.1 h.2.2 hQC
  have h1 : (reconcileTopology false false (Except.ok D) beh2 false).1
      = (reconcileCore beh2 D false).1 := rfl
  have h2 : (reconcileTopology false false (Except.ok D) beh2 false).2.2
      = Call.loadTopology :: (reconcileCore beh2 D false).2 := rfl
  refine ⟨h1 ▸ hcore.1, ?_⟩
  rw [h2]
  intro c hc
  rcases List.mem_cons.mp hc with rfl | hc3
  · rfl
  · exact hcore.2 c hc3

/-- C2 witness: the amended idempotence theorem applied to the concrete
witness scenario. -/
theorem C2_idempotence_witness :
    (reconcileTopology false false (Except.ok wD)
      (behOfBroker (brokerAfter wA wRun.2.2)) false).1 = emptyResult ∧
    ∀ c ∈ (reconcileTopology false false (Except.ok wD)
      (behOfBroker (brokerAfter wA wRun.2.2)) false).2.2, c.isMutation = false := by
  have hWf : wA.Wellformed := by
    intro t ht
    rw [show wA.bindings = [("oldq", "oldx", "")] from rfl, List.mem_singleton] at ht
    subst ht
    decide
  have hQC : ∀ t ∈ wD.bindings, t.1 ∈ wD.queues := by
    intro t ht
    rw [show wD.bindings = [("q1", "ex1", "k1")] from rfl, List.mem_singleton] at ht
    subst ht
    decide
  exact C2_idempotence (behOfBroker wA) (behOfBroker (brokerAfter wA wRun.2.2)) wA wD
    (behOfBroker_accurate wA) hWf hQC (by decide)
    (behOfBroker_accurate (brokerAfter wA wRun.2.2))

/-- C3: a dry run issues no mutation call; its six Created and Deleted lists,
read as sets, are exactly the direct set differences between the desired
topology and the accurately snapshotted actual state (extra bindings on
deleted queues excluded); and the whole dry-run result equals the result of a
real run in which every mutation succeeds. -/
theorem C3_dry_run_plan (beh : Behavior) (A : Broker) (D : Topology)
    (hAcc : Accurate beh A) (hWf : A.Wellformed)
    (hM : ∀ c, beh.mutErr c = none) :
    (∀ c ∈ (reconcileTopology false false (Except.ok D) beh true).2.2,
      c.isMutation = false) ∧
    (∀ x, x ∈ (reconcileTopology false false (Except.ok D) beh true).1.createdExchanges
      ↔ x ∈ D.exchangeNames ∧ x ∉ A.exchanges) ∧
    (∀ x, x ∈ (reconcileTopology false false (Except.ok D) beh true).1.deletedExchanges
      ↔ x ∈ A.exchanges ∧ x ∉ D.exchangeNames) ∧
    (∀ q, q ∈ (reconcileTopology false false (Except.ok D) beh true).1.createdQueues
      ↔ q ∈ D.queues ∧ q ∉ A.queues) ∧
    (∀ q, q ∈ (reconcileTopology false false (Except.ok D) beh true).1.deletedQueues
      ↔ q ∈ A.queues ∧ q ∉ D.queues) ∧
    (∀ t : Binding,
      t ∈ (reconcileTopology false false (Except.ok D) beh true).1.createdBindings
      ↔ t ∈ D.bindings ∧ t ∉ A.bindings) ∧
    (∀ t : Binding,
      t ∈ (reconcileTopology false false (Except.ok D) beh true).1.deletedBindings
      ↔ t ∈ A.bindings ∧ t.1 ∈ D.queues ∧ t ∉ D.bindings) ∧
    (reconcileTopology false false (Except.ok D) beh true).1
      = (reconcileTopology false false (Except.ok D) beh false).1 := by
  have hdry : ∀ {α : Type} (cands : List (α × Call)),
      phaseRecorded beh true cands = cands.map Prod.fst := by
    intro α cands
    simp [phaseRecorded]
  refine ⟨?_, ?_, ?_, ?_, ?_, ?_, ?_, ?_⟩
  · have htr : (reconcileTopology false false (Except.ok D) beh true).2.2
        = Call.loadTopology :: snapshotTraceOf beh := by
      simp [reconcileTopology, reconcileCore, phaseTrace]
    rw [htr]
    intro c hc
    rcases List.mem_cons.mp hc with rfl | hc2
    · rfl
    · exact snapshotTraceOf_reads beh c hc2
  · intro x
    have hfield : (reconcileTopology false false (Except.ok D) beh true).1.createdExchanges
        = phaseRecorded beh true (exCreateCands beh D) := rfl
    rw [hfield, hdry, exCreateCands, List.map_map, actualExchangesOf_acc hAcc]
    simp only [List.mem_map, Function.comp, List.mem_filter, decide_eq_true_eq,
      Topology.exchangeNames]
    constructor
    · rintro ⟨nk, ⟨h1, h2⟩, rfl⟩
      exact ⟨⟨nk, h1, rfl⟩, h2⟩
    · rintro ⟨⟨nk, h1, rfl⟩, h2⟩
      exact ⟨nk, ⟨h1, h2⟩, rfl⟩
  · intro x
    have hfield : (reconcileTopology false false (Except.ok D) beh true).1.deletedExchanges
        = phaseRecorded beh true (exDeleteCands beh D) := rfl
    rw [hfield, hdry, exDeleteCands, List.map_map, actualExchangesOf_acc hAcc]
    simp only [List.mem_map, Function.comp, List.mem_filter, decide_eq_true_eq]
    constructor
    · rintro ⟨n, ⟨h1, h2⟩, rfl⟩
      exact ⟨h1, h2⟩
    · rintro ⟨h1, h2⟩
      exact ⟨x, ⟨h1, h2⟩, rfl⟩
  · intro q
    have hfield : (reconcileTopology false false (Except.ok D) beh true).1.createdQueues
        = phaseRecorded beh true (qCreateCands beh D) := rfl
    rw [hfield, hdry, qCreateCands, List.map_map, actualQueuesOf_acc hAcc]
    simp only [List.mem_map, Function.comp, List.mem_filter, decide_eq_true_eq]
    constructor
    · rintro ⟨n, ⟨h1, h2⟩, rfl⟩
      exact ⟨h1, h2⟩
    · rintro ⟨h1, h2⟩
      exact ⟨q, ⟨h1, h2⟩, rfl⟩
  · intro q
    have hfield : (reconcileTopology false false (Except.ok D) beh true).1.deletedQueues
        = phaseRecorded beh true (qDeleteCands beh D) := rfl
    rw [hfield, hdry, qDeleteCands, List.map_map, actualQueuesOf_acc hAcc]
    simp only [List.mem_map, Function.comp, List.mem_filter, decide_eq_true_eq]
    constructor
    · rintro ⟨n, ⟨h1, h2⟩, rfl⟩
      exact ⟨h1, h2⟩
    · rintro ⟨h1, h2⟩
      exact ⟨q, ⟨h1, h2⟩, rfl⟩
  · intro t
    have hfield : (reconcileTopology false false (Except.ok D) beh true).1.createdBindings
        = phaseRecorded beh true (bCreateCands beh D) := rfl
    rw [hfield, hdry, bCreateCands, List.map_map]
    simp only [List.mem_map, Function.comp, List.mem_filter, decide_eq_true_eq]
    constructor
    · rintro ⟨s, ⟨h1, h2⟩, rfl⟩
      exact ⟨h1, fun hA => h2 ((mem_actualTriplesOf_acc hAcc hWf s).mpr hA)⟩
    · rintro ⟨h1, h2⟩
      exact ⟨t, ⟨h1, fun hA => h2 ((mem_actualTriplesOf_acc hAcc hWf t).mp hA)⟩, rfl⟩
  · intro t
    have hfield : (reconcileTopology false false (Except.ok D) beh true).1.deletedBindings
        = phaseRecorded beh true (bDeleteCands beh D) := rfl
    rw [hfield, hdry, bDeleteCands_eq, List.map_map]
    have hself : (bDeleteList beh D).map (Prod.fst ∘ fun t =>
        (t, Call.unbindQueue t.1 t.2.1 t.2.2)) = bDeleteList beh D := by
      have hid : ∀ s ∈ bDeleteList beh D,
          (Prod.fst ∘ fun t => (t, Call.unbindQueue t.1 t.2.1 t.2.2)) s = id s :=
        fun s _ => rfl
      rw [List.map_congr_left hid, List.map_id]
    rw [hself, mem_bDeleteList_acc D hAcc hWf]
  · have hrec : ∀ (α : Type) (cands : List (α × Call)),
        phaseRecorded beh true cands = phaseRecorded beh false cands := by
      intro α cands
      simp [phaseRecorded, hM]
    have h1 : (reconcileTopology false false (Except.ok D) beh true).1
        = (reconcileCore beh D true).1 := rfl
    have h2 : (reconcileTopology false false (Except.ok D) beh false).1
        = (reconcileCore beh D false).1 := rfl
    rw [h1, h2]
    simp only [reconcileCore, RResult.mk.injEq]
    refine ⟨hrec _ _, hrec _ _, hrec _ _, hrec _ _, hrec _ _, hrec _ _, ?_⟩
    simp [phaseErrors, hM]

/-- C3 witness: the dry-run theorem applied to the concrete witness scenario. -/
theorem C3_dry_run_plan_witness :
    (∀ c ∈ (reconcileTopology false false (Except.ok wD) (behOfBroker wA) true).2.2,
      c.isMutation = false) ∧
    ("ex1" ∈ (reconcileTopology false false (Except.ok wD) (behOfBroker wA) true).1.createdExchanges
      ↔ "ex1" ∈ wD.exchangeNames ∧ "ex1" ∉ wA.exchanges) ∧
    (reconcileTopology false false (Except.ok wD) (behOfBroker wA) true).1
      = (reconcileTopology false false (Except.ok wD) (behOfBroker wA) false).1 := by
  have hWf : wA.Wellformed := by
    intro t ht
    rw [show wA.bindings = [("oldq", "oldx", "")] from rfl, List.mem_singleton] at ht
    subst ht
    decide
  have h := C3_dry_run_plan (behOfBroker wA) wA wD (behOfBroker_accurate wA) hWf
    (fun _ => rfl)
  exact ⟨h.1, h.2.1 "ex1", h.2.2.2.2.2.2.2⟩

/-! Helper facts for system-exchange safety. -/

theorem mem_actualExchangesOf_not_system {beh : Behavior}
    (hLE : ∀ l, beh.listExchanges = Except.ok l → ∀ n ∈ l, isSystemExchange n = false) :
    ∀ n ∈ actualExchangesOf beh, isSystemExchange n = false := by
  intro n hn
  cases hbe : beh.listExchanges with
  | ok l =>
    simp only [actualExchangesOf, hbe] at hn
    exact hLE l hbe n hn
  | error m =>
    simp only [actualExchangesOf, hbe] at hn
    exact absurd hn (List.not_mem_nil n)

theorem deleteExchange_mem_trace {beh : Behavior} {D : Topology} {dryRun : Bool} {n : String}
    (hmem : Call.deleteExchange n ∈ (reconcileCore beh D dryRun).2) :
    n ∈ actualExchangesOf beh := by
  cases dryRun with
  | true =>
    have htr2 : (reconcileCore beh D true).2
        = snapshotTraceOf beh ++ [] ++ [] ++ [] ++ [] ++ [] ++ [] := rfl
    rw [htr2] at hmem
    simp only [List.append_nil] at hmem
    have := snapshotTraceOf_reads beh _ hmem
    simp [Call.isMutation] at this
  | false =>
    rw [trace_real] at hmem
    rcases List.mem_append.mp hmem with h6 | hc
    rotate_left
    · rcases List.mem_map.mp hc with ⟨s, _, heq⟩
      exact Call.noConfusion heq
    rcases List.mem_append.mp h6 with h5 | hc
    rotate_left
    · rcases List.mem_map.mp hc with ⟨s, _, heq⟩
      exact Call.noConfusion heq
    rcases List.mem_append.mp h5 with h4 | hc
    rotate_left
    · rcases List.mem_map.mp hc with ⟨m, _, heq⟩
      exact Call.noConfusion heq
    rcases List.mem_append.mp h4 with h3 | hc
    rotate_left
    · rcases List.mem_map.mp hc with ⟨m, _, heq⟩
      exact Call.noConfusion heq
    rcases List.mem_append.mp h3 with h2 | hc
    rotate_left
    · rcases List.mem_map.mp hc with ⟨m, hm, heq⟩
      injection heq with he
      subst he
      exact (List.mem_filter.mp hm).1
    rcases List.mem_append.mp h2 with h1 | hc
    rotate_left
    · rcases List.mem_map.mp hc with ⟨nk, _, heq⟩
      exact Call.noConfusion heq
    · have := snapshotTraceOf_reads beh _ h1
      simp [Call.isMutation] at this

/-- C4: system-exchange safety. The rabbitmq adapter never returns a system
name (empty, or amq. prefixed) from ListExchanges; DeleteExchange on a system
name fails with an error whatever the HTTP layer would answer; and under a
provider whose exchange listing excludes system names, no reconciliation
reports a system name in DeletedExchanges or issues a DeleteExchange call
for one. -/
theorem C4_system_exchange_safety :
    (∀ decoded : List String, ∀ n, isSystemExchange n = true →
      n ∉ listExchangesNames decoded) ∧
    (∀ n, isSystemExchange n = true → ∀ httpStatus,
      deleteExchangeRMQ n httpStatus
        = Except.error ("cannot delete system exchange: " ++ n)) ∧
    (∀ (beh : Behavior) (D : Topology) (dryRun : Bool),
      (∀ l, beh.listExchanges = Except.ok l → ∀ n ∈ l, isSystemExchange n = false) →
      ∀ n, isSystemExchange n = true →
        n ∉ (reconcileTopology false false (Except.ok D) beh dryRun).1.deletedExchanges ∧
        Call.deleteExchange n ∉ (reconcileTopology false false (Except.ok D) beh dryRun).2.2) := by
  refine ⟨?_, ?_, ?_⟩
  · intro decoded n h hmem
    rw [listExchangesNames, List.mem_filter] at hmem
    rw [h] at hmem
    simpa using hmem.2
  · intro n h httpStatus
    rw [deleteExchangeRMQ.eq_def, if_pos h]
  · intro beh D dryRun hLE n h
    have hact := mem_actualExchangesOf_not_system hLE
    constructor
    · intro hmem
      have hfield : (reconcileTopology false false (Except.ok D) beh dryRun).1.deletedExchanges
          = phaseRecorded beh dryRun (exDeleteCands beh D) := rfl
      rw [hfield] at hmem
      simp only [phaseRecorded, exDeleteCands, List.mem_map, List.mem_filter] at hmem
      rcases hmem with ⟨ac, ⟨⟨m, ⟨hmA, _⟩, rfl⟩, _⟩, rfl⟩
      rw [hact m hmA] at h
      exact Bool.false_ne_true h
    · intro hmem
      have htr : (reconcileTopology false false (Except.ok D) beh dryRun).2.2
          = Call.loadTopology :: (reconcileCore beh D dryRun).2 := rfl
      rw [htr] at hmem
      rcases List.mem_cons.mp hmem with heq | hmem2
      · exact Call.noConfusion heq
      · have hnA := deleteExchange_mem_trace hmem2
        rw [hact n hnA] at h
        exact Bool.false_ne_true h

/-- C4 witness: system-exchange safety facts at concrete inputs. -/
theorem C4_system_exchange_safety_witness :
    ("amq.direct" ∉ listExchangesNames ["amq.direct", "x"]) ∧
    (deleteExchangeRMQ "" (Except.ok 200)
      = Except.error ("cannot delete system exchange: " ++ "")) ∧
    ("amq.topic" ∉ (reconcileTopology false false (Except.ok wD)
      (behOfBroker wA) false).1.deletedExchanges) := by
  refine ⟨C4_system_exchange_safety.1 ["amq.direct", "x"] "amq.direct" (by decide),
    C4_system_exchange_safety.2.1 "" (by decide) (Except.ok 200), ?_⟩
  have hLE : ∀ l, (behOfBroker wA).listExchanges = Except.ok l →
      ∀ n ∈ l, isSystemExchange n = false := by
    intro l hl
    injection hl with h2
    subst h2
    decide
  exact (C4_system_exchange_safety.2.2 (behOfBroker wA) wD false hLE "amq.topic" (by decide)).1

/-! Helper facts about the delete-extra-bindings phase. -/

theorem mem_bindingsMapOf_fst {beh : Behavior} {q0 : String} {s : Binding}
    (h : s ∈ bindingsMapOf beh q0) : s.1 = q0 := by
  cases hbe : beh.listBindings q0 with
  | ok bs =>
    simp only [bindingsMapOf, hbe] at h
    rcases List.mem_map.mp (List.mem_dedup.mp h) with ⟨b, _, rfl⟩
    rfl
  | error m =>
    simp only [bindingsMapOf, hbe] at h
    exact absurd h (List.not_mem_nil s)

theorem mem_bDeleteList_queue {beh : Behavior} {D : Topology} {t : Binding}
    (h : t ∈ bDeleteList beh D) : t.1 ∈ D.queues := by
  rcases List.mem_flatMap.mp h with ⟨q0, hq0, ht⟩
  have hq0D : q0 ∈ D.queues := by
    have := (List.mem_filter.mp hq0).2
    simpa using this
  have := mem_bindingsMapOf_fst (List.mem_filter.mp ht).1
  rw [this]
  exact hq0D

theorem mem_bDeleteList_snapQueue {beh : Behavior} {D : Topology} {t : Binding}
    (h : t ∈ bDeleteList beh D) : t.1 ∈ snapQueuesOf beh := by
  rcases List.mem_flatMap.mp h with ⟨q0, hq0, ht⟩
  have := mem_bindingsMapOf_fst (List.mem_filter.mp ht).1
  rw [this]
  exact (List.mem_filter.mp hq0).1

theorem unbindQueue_mem_trace {beh : Behavior} {D : Topology} {dryRun : Bool}
    {q e k : String}
    (hmem : Call.unbindQueue q e k ∈ (reconcileCore beh D dryRun).2) :
    ((q, e, k) : Binding) ∈ bDeleteList beh D := by
  cases dryRun with
  | true =>
    have htr2 : (reconcileCore beh D true).2
        = snapshotTraceOf beh ++ [] ++ [] ++ [] ++ [] ++ [] ++ [] := rfl
    rw [htr2] at hmem
    simp only [List.append_nil] at hmem
    have := snapshotTraceOf_reads beh _ hmem
    simp [Call.isMutation] at this
  | false =>
    rw [trace_real] at hmem
    rcases List.mem_append.mp hmem with h6 | hc
    rotate_left
    · rcases List.mem_map.mp hc with ⟨s, hs, heq⟩
      injection heq with h1 h2 h3
      have hseq : s = (q, e, k) := by
        rw [← h1, ← h2, ← h3]
      rw [← hseq]
      exact hs
    rcases List.mem_append.mp h6 with h5 | hc
    rotate_left
    · rcases List.mem_map.mp hc with ⟨s, _, heq⟩
      exact Call.noConfusion heq
    rcases List.mem_append.mp h5 with h4 | hc
    rotate_left
    · rcases List.mem_map.mp hc with ⟨m, _, heq⟩
      exact Call.noConfusion heq
    rcases List.mem_append.mp h4 with h3 | hc
    rotate_left
    · rcases List.mem_map.mp hc with ⟨m, _, heq⟩
      exact Call.noConfusion heq
    rcases List.mem_append.mp h3 with h2 | hc
    rotate_left
    · rcases List.mem_map.mp hc with ⟨m, _, heq⟩
      exact Call.noConfusion heq
    rcases List.mem_append.mp h2 with h1 | hc
    rotate_left
    · rcases List.mem_map.mp hc with ⟨nk, _, heq⟩
      exact Call.noConfusion heq
    · have := snapshotTraceOf_reads beh _ h1
      simp [Call.isMutation] at this

/-- C5: bindings go with the queue. For every binding triple whose queue is not
in the desired queue list, the pass issues no UnbindQueue call for the triple
and never reports it in DeletedBindings; when that queue is in the snapshot
queue list, its own deletion is recorded in DeletedQueues (in dry run, or when
the DeleteQueue mutation succeeds). -/
theorem C5_bindings_go_with_queue (beh : Behavior) (D : Topology) (dryRun : Bool)
    (t : Binding) (ht : t.1 ∉ D.queues) :
    Call.unbindQueue t.1 t.2.1 t.2.2
      ∉ (reconcileTopology false false (Except.ok D) beh dryRun).2.2 ∧
    t ∉ (reconcileTopology false false (Except.ok D) beh dryRun).1.deletedBindings ∧
    (t.1 ∈ actualQueuesOf beh →
      (dryRun = true ∨ beh.mutErr (Call.deleteQueue t.1) = none) →
      t.1 ∈ (reconcileTopology false false (Except.ok D) beh dryRun).1.deletedQueues) := by
  refine ⟨?_, ?_, ?_⟩
  · intro hmem
    have htr : (reconcileTopology false false (Except.ok D) beh dryRun).2.2
        = Call.loadTopology :: (reconcileCore beh D dryRun).2 := rfl
    rw [htr] at hmem
    rcases List.mem_cons.mp hmem with heq | hmem2
    · exact Call.noConfusion heq
    · exact ht (mem_bDeleteList_queue (unbindQueue_mem_trace hmem2))
  · intro hmem
    have hfield : (reconcileTopology false false (Except.ok D) beh dryRun).1.deletedBindings
        = phaseRecorded beh dryRun (bDeleteCands beh D) := rfl
    rw [hfield, phaseRecorded, bDeleteCands_eq] at hmem
    rcases List.mem_map.mp hmem with ⟨ac, hac, rfl⟩
    rcases List.mem_map.mp (List.mem_filter.mp hac).1 with ⟨s, hs, rfl⟩
    exact ht (mem_bDeleteList_queue hs)
  · intro hA hok
    have hfield : (reconcileTopology false false (Except.ok D) beh dryRun).1.deletedQueues
        = phaseRecorded beh dryRun (qDeleteCands beh D) := rfl
    rw [hfield, phaseRecorded]
    refine List.mem_map.mpr ⟨(t.1, Call.deleteQueue t.1), List.mem_filter.mpr ⟨?_, ?_⟩, rfl⟩
    · exact List.mem_map.mpr ⟨t.1, List.mem_filter.mpr ⟨hA, by simpa using ht⟩, rfl⟩
    · rcases hok with hdry | hnone
      · subst hdry
        rfl
      · simp [hnone]

/-- C5 witness: the theorem applied to the witness scenario, whose actual state
holds one binding on the extra queue oldq. -/
theorem C5_bindings_go_with_queue_witness :
    Call.unbindQueue "oldq" "oldx" ""
      ∉ (reconcileTopology false false (Except.ok wD) (behOfBroker wA) false).2.2 ∧
    (("oldq", "oldx", "") : Binding)
      ∉ (reconcileTopology false false (Except.ok wD) (behOfBroker wA) false).1.deletedBindings ∧
    "oldq" ∈ (reconcileTopology false false (Except.ok wD) (behOfBroker wA) false).1.deletedQueues := by
  have h := C5_bindings_go_with_queue (behOfBroker wA) wD false ("oldq", "oldx", "")
    (by decide)
  exact ⟨h.1, h.2.1, h.2.2 (by decide) (Or.inr rfl)⟩

theorem deleteQueue_mem_trace {beh : Behavior} {D : Topology} {dryRun : Bool}
    {n : String}
    (hmem : Call.deleteQueue n ∈ (reconcileCore beh D dryRun).2) :
    n ∈ actualQueuesOf beh := by
  cases dryRun with
  | true =>
    have htr2 : (reconcileCore beh D true).2
        = snapshotTraceOf beh ++ [] ++ [] ++ [] ++ [] ++ [] ++ [] := rfl
    rw [htr2] at hmem
    simp only [List.append_nil] at hmem
    have := snapshotTraceOf_reads beh _ hmem
    simp [Call.isMutation] at this
  | false =>
    rw [trace_real] at hmem
    rcases List.mem_append.mp hmem with h6 | hc
    rotate_left
    · rcases List.mem_map.mp hc with ⟨s, _, heq⟩
      exact Call.noConfusion heq
    rcases List.mem_append.mp h6 with h5 | hc
    rotate_left
    · rcases List.mem_map.mp hc with ⟨s, _, heq⟩
      exact Call.noConfusion heq
    rcases List.mem_append.mp h5 with h4 | hc
    rotate_left
    · rcases List.mem_map.mp hc with ⟨m, hm, heq⟩
      injection heq with he
      subst he
      exact (List.mem_filter.mp hm).1
    rcases List.mem_append.mp h4 with h3 | hc
    rotate_left
    · rcases List.mem_map.mp hc with ⟨m, _, heq⟩
      exact Call.noConfusion heq
    rcases List.mem_append.mp h3 with h2 | hc
    rotate_left
    · rcases List.mem_map.mp hc with ⟨m, _, heq⟩
      exact Call.noConfusion heq
    rcases List.mem_append.mp h2 with h1 | hc
    rotate_left
    · rcases List.mem_map.mp hc with ⟨nk, _, heq⟩
      exact Call.noConfusion heq
    · have := snapshotTraceOf_reads beh _ h1
      simp [Call.isMutation] at this

/-- C6: snapshot shard failure tolerance. With all mutations succeeding, the
error list of a pass is exactly the snapshot error list (one entry per failed
inventory call) and the pass returns without a fatal error. When ListExchanges
fails, every desired exchange is reported created and no DeleteExchange is
issued; when ListQueues fails, every desired queue is reported created and no
DeleteQueue is issued; when ListBindings fails for a snapshotted queue, every
desired binding on that queue is reported created and no UnbindQueue is issued
for that queue. -/
theorem C6_snapshot_failure_tolerance (beh : Behavior) (D : Topology)
    (hM : ∀ c, beh.mutErr c = none) :
    ((reconcileTopology false false (Except.ok D) beh false).2.1 = none ∧
     (reconcileTopology false false (Except.ok D) beh false).1.errors
       = snapErrorsOf beh) ∧
    (∀ m, beh.listExchanges = Except.error m →
      ("failed to list exchanges: " ++ m)
        ∈ (reconcileTopology false false (Except.ok D) beh false).1.errors ∧
      (∀ nk ∈ D.exchanges,
        nk.1 ∈ (reconcileTopology false false (Except.ok D) beh false).1.createdExchanges) ∧
      (∀ n, Call.deleteExchange n
        ∉ (reconcileTopology false false (Except.ok D) beh false).2.2)) ∧
    (∀ m, beh.listQueues = Except.error m →
      ("failed to list queues: " ++ m)
        ∈ (reconcileTopology false false (Except.ok D) beh false).1.errors ∧
      (∀ n ∈ D.queues,
        n ∈ (reconcileTopology false false (Except.ok D) beh false).1.createdQueues) ∧
      (∀ n, Call.deleteQueue n
        ∉ (reconcileTopology false false (Except.ok D) beh false).2.2)) ∧
    (∀ q0 m aqs, beh.listQueues = Except.ok aqs → q0 ∈ aqs →
      beh.listBindings q0 = Except.error m →
      ("failed to list bindings for queue " ++ q0 ++ ": " ++ m)
        ∈ (reconcileTopology false false (Except.ok D) beh false).1.errors ∧
      (∀ t ∈ D.bindings, t.1 = q0 →
        t ∈ (reconcileTopology false false (Except.ok D) beh false).1.createdBindings) ∧
      (∀ e k, Call.unbindQueue q0 e k
        ∉ (reconcileTopology false false (Except.ok D) beh false).2.2)) := by
  have herr : (reconcileTopology false false (Except.ok D) beh false).1.errors
      = snapErrorsOf beh := by
    have hfield : (reconcileTopology false false (Except.ok D) beh false).1.errors
        = snapErrorsOf beh
          ++ phaseErrors beh false (exCreateCands beh D)
               (fun n m => "failed to create exchange " ++ n ++ ": " ++ m)
          ++ phaseErrors beh false (exDeleteCands beh D)
               (fun n m => "failed to delete exchange " ++ n ++ ": " ++ m)
          ++ phaseErrors beh false (qCreateCands beh D)
               (fun n m => "failed to create queue " ++ n ++ ": " ++ m)
          ++ phaseErrors beh false (qDeleteCands beh D)
               (fun n m => "failed to delete queue " ++ n ++ ": " ++ m)
          ++ phaseErrors beh false (bCreateCands beh D)
               (fun t m => "failed to create binding " ++ t.2.1 ++ " -> " ++ t.1
                 ++ " (routing key: " ++ t.2.2 ++ "): " ++ m)
          ++ phaseErrors beh false (bDeleteCands beh D)
               (fun t m => "failed to delete binding " ++ t.2.1 ++ " -> " ++ t.1
                 ++ " (routing key: " ++ t.2.2 ++ "): " ++ m) := rfl
    rw [hfield]
    simp [phaseErrors, hM]
  have hrecorded : ∀ {α : Type} (cands : List (α × Call)),
      phaseRecorded beh false cands = cands.map Prod.fst := by
    intro α cands
    simp [phaseRecorded, hM]
  refine ⟨⟨rfl, herr⟩, ?_, ?_, ?_⟩
  · intro m hbe
    refine ⟨?_, ?_, ?_⟩
    · rw [herr, snapErrorsOf, hbe]
      exact List.mem_append_left _ (List.mem_append_left _ (List.mem_singleton.mpr rfl))
    · intro nk hnk
      have hfield : (reconcileTopology false false (Except.ok D) beh false).1.createdExchanges
          = phaseRecorded beh false (exCreateCands beh D) := rfl
      rw [hfield, hrecorded, exCreateCands, List.map_map]
      refine List.mem_map.mpr ⟨nk, List.mem_filter.mpr ⟨hnk, ?_⟩, rfl⟩
      simp [actualExchangesOf, hbe]
    · intro n hmem
      rcases List.mem_cons.mp hmem with heq | hmem2
      · exact Call.noConfusion heq
      · have := deleteExchange_mem_trace hmem2
        rw [show actualExchangesOf beh = [] by simp [actualExchangesOf, hbe]] at this
        exact List.not_mem_nil n this
  · intro m hbq
    refine ⟨?_, ?_, ?_⟩
    · rw [herr, snapErrorsOf, hbq]
      exact List.mem_append_left _ (List.mem_append_right _ (List.mem_singleton.mpr rfl))
    · intro n hn
      have hfield : (reconcileTopology false false (Except.ok D) beh false).1.createdQueues
          = phaseRecorded beh false (qCreateCands beh D) := rfl
      rw [hfield, hrecorded, qCreateCands, List.map_map]
      refine List.mem_map.mpr ⟨n, List.mem_filter.mpr ⟨hn, ?_⟩, rfl⟩
      simp [actualQueuesOf, hbq]
    · intro n hmem
      rcases List.mem_cons.mp hmem with heq | hmem2
      · exact Call.noConfusion heq
      · have := deleteQueue_mem_trace hmem2
        rw [show actualQueuesOf beh = [] by simp [actualQueuesOf, hbq]] at this
        exact List.not_mem_nil n this
  · intro q0 m aqs hbq hq0 hbl
    refine ⟨?_, ?_, ?_⟩
    · rw [herr, snapErrorsOf]
      refine List.mem_append_right _ (List.mem_filterMap.mpr ⟨q0, ?_, ?_⟩)
      · simp [actualQueuesOf, hbq]
        exact hq0
      · rw [hbl]
    · intro t ht htq
      have hfield : (reconcileTopology false false (Except.ok D) beh false).1.createdBindings
          = phaseRecorded beh false (bCreateCands beh D) := rfl
      rw [hfield, hrecorded, bCreateCands, List.map_map]
      refine List.mem_map.mpr ⟨t, List.mem_filter.mpr ⟨ht, ?_⟩, rfl⟩
      simp only [decide_eq_true_eq]
      intro hmem
      rcases List.mem_flatMap.mp hmem with ⟨q1, hq1, ht1⟩
      have hfst := mem_bindingsMapOf_fst ht1
      rw [htq] at hfst
      subst hfst
      have hok := (List.mem_filter.mp hq1).2
      rw [hbl] at hok
      simp [Except.isOk, Except.toBool] at hok
    · intro e k hmem
      rcases List.mem_cons.mp hmem with heq | hmem2
      · exact Call.noConfusion heq
      · have hbd := unbindQueue_mem_trace hmem2
        have hsq := mem_bDeleteList_snapQueue hbd
        have hok := (List.mem_filter.mp hsq).2
        rw [hbl] at hok
        simp [Except.isOk, Except.toBool] at hok

/-- Witness behavior whose ListExchanges fails while the remaining reads
mirror the witness broker and every mutation succeeds. -/
def wBehExFail : Behavior :=
  { listExchanges := Except.error "boom"
    listQueues := Except.ok wA.queues
    listBindings := fun q => Except.ok (wA.bindings.filter (fun t => decide (t.1 = q)))
    mutErr := fun _ => none }

/-- C6 witness: a provider whose exchange listing fails while everything else
matches the desired topology. -/
theorem C6_snapshot_failure_tolerance_witness :
    ("failed to list exchanges: boom")
      ∈ (reconcileTopology false false (Except.ok wD) wBehExFail false).1.errors ∧
    ("ex1" ∈ (reconcileTopology false false (Except.ok wD) wBehExFail false).1.createdExchanges) ∧
    (Call.deleteExchange "oldx"
      ∉ (reconcileTopology false false (Except.ok wD) wBehExFail false).2.2) := by
  have h := (C6_snapshot_failure_tolerance wBehExFail wD (fun _ => rfl)).2.1 "boom" rfl
  exact ⟨h.1, h.2.1 ("ex1", "topic") (by decide), h.2.2 "oldx"⟩

/-- C7: the scheduler tick at the failing input. When the Health probe reports
not OK, Connect succeeds and the repository is available, the code skips
reconciliation in that tick: the guard at scheduler.go line 123 reuses the
Health result captured before the reconnect, so the claimed
reconnect-then-reconcile behavior does not happen. A healthy tick with a
repository does run reconciliation in non-dry mode, and a failed reconnect
skips the tick as claimed. -/
theorem C7_reconnect_tick_skips_reconcile :
    schedulerTick false true true
      = { reconnectAttempted := true, reconnectFailed := false,
          ranReconcile := false, reconcileDryRun := false } ∧
    (schedulerTick true true true).ranReconcile = true ∧
    (schedulerTick true true true).reconcileDryRun = false ∧
    (schedulerTick false false true).ranReconcile = false ∧
    (schedulerTick true true false).ranReconcile = false := by
  decide

/-! Facts for the duplicate-bindings claim. -/

theorem mem_createdBindings_iff (beh : Behavior) (D : Topology) (dryRun : Bool)
    (t : Binding) :
    t ∈ (reconcileTopology false false (Except.ok D) beh dryRun).1.createdBindings
    ↔ (t ∈ D.bindings ∧ t ∉ actualTriplesOf beh ∧
        (dryRun || (beh.mutErr (Call.bindQueue t.1 t.2.1 t.2.2)).isNone) = true) := by
  have hfield : (reconcileTopology false false (Except.ok D) beh dryRun).1.createdBindings
      = phaseRecorded beh dryRun (bCreateCands beh D) := rfl
  rw [hfield, phaseRecorded, bCreateCands]
  constructor
  · intro h
    rcases List.mem_map.mp h with ⟨ac, hac, rfl⟩
    have h1 := List.mem_filter.mp hac
    rcases List.mem_map.mp h1.1 with ⟨s, hs, rfl⟩
    have hs2 := List.mem_filter.mp hs
    exact ⟨hs2.1, by simpa using hs2.2, h1.2⟩
  · rintro ⟨h1, h2, h3⟩
    exact List.mem_map.mpr ⟨(t, Call.bindQueue t.1 t.2.1 t.2.2),
      List.mem_filter.mpr ⟨List.mem_map.mpr ⟨t,
        List.mem_filter.mpr ⟨h1, by simpa using h2⟩, rfl⟩, h3⟩, rfl⟩

theorem errors_eq_snapErrorsOf (beh : Behavior) (D : Topology) (dryRun : Bool)
    (hM : ∀ c, beh.mutErr c = none) :
    (reconcileTopology false false (Except.ok D) beh dryRun).1.errors
      = snapErrorsOf beh := by
  have hfield : (reconcileTopology false false (Except.ok D) beh dryRun).1.errors
      = snapErrorsOf beh
        ++ phaseErrors beh dryRun (exCreateCands beh D)
             (fun n m => "failed to create exchange " ++ n ++ ": " ++ m)
        ++ phaseErrors beh dryRun (exDeleteCands beh D)
             (fun n m => "failed to delete exchange " ++ n ++ ": " ++ m)
        ++ phaseErrors beh dryRun (qCreateCands beh D)
             (fun n m => "failed to create queue " ++ n ++ ": " ++ m)
        ++ phaseErrors beh dryRun (qDeleteCands beh D)
             (fun n m => "failed to delete queue " ++ n ++ ": " ++ m)
        ++ phaseErrors beh dryRun (bCreateCands beh D)
             (fun t m => "failed to create binding " ++ t.2.1 ++ " -> " ++ t.1
               ++ " (routing key: " ++ t.2.2 ++ "): " ++ m)
        ++ phaseErrors beh dryRun (bDeleteCands beh D)
             (fun t m => "failed to delete binding " ++ t.2.1 ++ " -> " ++ t.1
               ++ " (routing key: " ++ t.2.2 ++ "): " ++ m) := rfl
  rw [hfield]
  simp [phaseErrors, hM]

theorem createdBindings_nodup (beh : Behavior) (D2 : Topology) (dryRun : Bool)
    (hnd : D2.bindings.Nodup) :
    (reconcileTopology false false (Except.ok D2) beh dryRun).1.createdBindings.Nodup := by
  have hfield : (reconcileTopology false false (Except.ok D2) beh dryRun).1.createdBindings
      = phaseRecorded beh dryRun (bCreateCands beh D2) := rfl
  rw [hfield, phaseRecorded, bCreateCands, List.filter_map, List.map_map]
  have hid : ∀ s ∈ ((D2.bindings.filter
        (fun s => decide (s ∉ actualTriplesOf beh))).filter
        ((fun ac => dryRun || (beh.mutErr ac.2).isNone) ∘
          (fun s => (s, Call.bindQueue s.1 s.2.1 s.2.2)))),
      (Prod.fst ∘ fun s => (s, Call.bindQueue s.1 s.2.1 s.2.2)) s = id s :=
    fun s _ => rfl
  rw [List.map_congr_left hid, List.map_id]
  exact (hnd.filter _).filter _

/-- C8: as frozen, the deduplication claim fails: the create-missing-bindings
loop traverses the desired binding slice and checks each occurrence against
the snapshot map, which is never updated, so a duplicated missing triple is
bound once per occurrence and recorded once per occurrence. -/
theorem C8_claim_counterexample :
    (reconcileTopology false false
        (Except.ok ⟨[("e", "direct")], ["q"], [("q", "e", "k"), ("q", "e", "k")]⟩)
        (behOfBroker ⟨[], [], []⟩) false).1.createdBindings
      = [("q", "e", "k"), ("q", "e", "k")] ∧
    ((reconcileTopology false false
        (Except.ok ⟨[("e", "direct")], ["q"], [("q", "e", "k"), ("q", "e", "k")]⟩)
        (behOfBroker ⟨[], [], []⟩) false).2.2.count (Call.bindQueue "q" "e" "k")) = 2 ∧
    (reconcileTopology false false
        (Except.ok ⟨[("e", "direct")], ["q"], [("q", "e", "k"), ("q", "e", "k")]⟩)
        (behOfBroker ⟨[], [], []⟩) false).1.errors = [] := by
  refine ⟨by decide, by decide, by decide⟩

/-- C8 (amended): duplicate desired binding triples are not reported as errors
(with all mutations succeeding, the error list is exactly the snapshot error
list, independent of duplication), and the created-bindings list agrees, as a
set, with the one computed for the deduplicated desired binding list — whose
created-bindings list holds no duplicate, so every missing triple is bound and
recorded at most once there. Each duplicated missing
occurrence does, however, issue its own BindQueue call and CreatedBindings
entry, as the counterexample shows. -/
theorem C8_duplicate_bindings (beh : Behavior) (D : Topology) (dryRun : Bool)
    (hM : ∀ c, beh.mutErr c = none) :
    (∀ t : Binding,
      t ∈ (reconcileTopology false false (Except.ok D) beh dryRun).1.createdBindings
      ↔ t ∈ (reconcileTopology false false
          (Except.ok ⟨D.exchanges, D.queues, D.bindings.dedup⟩)
          beh dryRun).1.createdBindings) ∧
    ((reconcileTopology false false (Except.ok D) beh dryRun).1.errors
      = (reconcileTopology false false
          (Except.ok ⟨D.exchanges, D.queues, D.bindings.dedup⟩) beh dryRun).1.errors) ∧
    (reconcileTopology false false
        (Except.ok ⟨D.exchanges, D.queues, D.bindings.dedup⟩)
        beh dryRun).1.createdBindings.Nodup := by
  refine ⟨?_, ?_, ?_⟩
  · intro t
    rw [mem_createdBindings_iff, mem_createdBindings_iff]
    constructor
    · rintro ⟨h1, h2, h3⟩
      exact ⟨List.mem_dedup.mpr h1, h2, h3⟩
    · rintro ⟨h1, h2, h3⟩
      exact ⟨List.mem_dedup.mp h1, h2, h3⟩
  · rw [errors_eq_snapErrorsOf beh D dryRun hM,
      errors_eq_snapErrorsOf beh ⟨D.exchanges, D.queues, D.bindings.dedup⟩ dryRun hM]
  · exact createdBindings_nodup beh ⟨D.exchanges, D.queues, D.bindings.dedup⟩
      dryRun (List.nodup_dedup D.bindings)

/-- C8 witness: the amended theorem applied to the duplicated scenario. -/
theorem C8_duplicate_bindings_witness :
    ((("q", "e", "k") : Binding) ∈ (reconcileTopology false false
        (Except.ok ⟨[("e", "direct")], ["q"], [("q", "e", "k"), ("q", "e", "k")]⟩)
        (behOfBroker ⟨[], [], []⟩) false).1.createdBindings
      ↔ (("q", "e", "k") : Binding) ∈ (reconcileTopology false false
        (Except.ok ⟨[("e", "direct")], ["q"],
          ([("q", "e", "k"), ("q", "e", "k")] : List Binding).dedup⟩)
        (behOfBroker ⟨[], [], []⟩) false).1.createdBindings) ∧
    (reconcileTopology false false
        (Except.ok ⟨[("e", "direct")], ["q"],
          ([("q", "e", "k"), ("q", "e", "k")] : List Binding).dedup⟩)
        (behOfBroker ⟨[], [], []⟩) false).1.createdBindings.Nodup := by
  have h := C8_duplicate_bindings (behOfBroker ⟨[], [], []⟩)
    ⟨[("e", "direct")], ["q"], [("q", "e", "k"), ("q", "e", "k")]⟩ false (fun _ => rfl)
  exact ⟨h.1 ("q", "e", "k"), h.2.2⟩

/-! Phase order of the calls in a pass. -/

/-- Position of a call in the fixed phase order of one pass: load, snapshot
reads, create exchanges, delete exchanges, create queues, delete queues,
create bindings, delete bindings. -/
def callRank : Call → Nat
  | .loadTopology => 0
  | .listExchanges => 1
  | .listQueues => 1
  | .listBindings _ => 1
  | .declareExchange _ _ _ => 2
  | .deleteExchange _ => 3
  | .declareQueue _ _ => 4
  | .deleteQueue _ => 5
  | .bindQueue _ _ _ => 6
  | .unbindQueue _ _ _ => 7

/-- Whether a call is a DeclareQueue. -/
def Call.isDeclQueueCall : Call → Bool
  | .declareQueue _ _ => true
  | _ => false

/-- Whether a call is a BindQueue. -/
def Call.isBindQueueCall : Call → Bool
  | .bindQueue _ _ _ => true
  | _ => false

theorem callRank_of_declQueue {c : Call} (h : c.isDeclQueueCall = true) :
    callRank c = 4 := by
  cases c <;> first | rfl | simp [Call.isDeclQueueCall] at h

theorem callRank_of_bindQueue {c : Call} (h : c.isBindQueueCall = true) :
    callRank c = 6 := by
  cases c <;> first | rfl | simp [Call.isBindQueueCall] at h

theorem declQueue_not_bindQueue {c : Call} (h : c.isDeclQueueCall = true) :
    c.isBindQueueCall = false := by
  cases c <;> first | rfl | simp [Call.isDeclQueueCall] at h

/-- C9: within one pass the issued calls respect the fixed phase order — their
ranks in the seven-phase order are monotone along the trace — and in
particular every DeclareQueue call precedes every BindQueue call. -/
theorem C9_phase_order (beh : Behavior) (D : Topology) (dryRun : Bool) :
    List.Pairwise (fun a b => callRank a ≤ callRank b)
      (reconcileTopology false false (Except.ok D) beh dryRun).2.2 ∧
    (∀ i j : Fin (reconcileTopology false false (Except.ok D) beh dryRun).2.2.length,
      ((reconcileTopology false false (Except.ok D) beh dryRun).2.2.get i).isDeclQueueCall = true →
      ((reconcileTopology false false (Except.ok D) beh dryRun).2.2.get j).isBindQueueCall = true →
      i.val < j.val) := by
  have hsnap : ∀ c ∈ snapshotTraceOf beh, callRank c = 1 := by
    intro c hc
    simp only [snapshotTraceOf, List.mem_append, List.mem_map, List.mem_cons,
      List.mem_singleton, List.not_mem_nil] at hc
    rcases hc with (rfl | rfl | h) | ⟨q, _, rfl⟩ <;> simp [callRank] at *
  have hphase : ∀ {α : Type} (cands : List (α × Call)) (r : Nat),
      (∀ ac ∈ cands, callRank ac.2 = r) →
      ∀ c ∈ phaseTrace dryRun cands, callRank c = r := by
    intro α cands r hr c hc
    cases dryRun with
    | true => simp [phaseTrace] at hc
    | false =>
      have hc2 : c ∈ cands.map Prod.snd := hc
      rcases List.mem_map.mp hc2 with ⟨ac, hac, rfl⟩
      exact hr ac hac
  have c2 : ∀ ac ∈ exCreateCands beh D, callRank ac.2 = 2 := by
    intro ac hac
    rcases List.mem_map.mp hac with ⟨nk, _, rfl⟩
    rfl
  have c3 : ∀ ac ∈ exDeleteCands beh D, callRank ac.2 = 3 := by
    intro ac hac
    rcases List.mem_map.mp hac with ⟨n, _, rfl⟩
    rfl
  have c4 : ∀ ac ∈ qCreateCands beh D, callRank ac.2 = 4 := by
    intro ac hac
    rcases List.mem_map.mp hac with ⟨n, _, rfl⟩
    rfl
  have c5 : ∀ ac ∈ qDeleteCands beh D, callRank ac.2 = 5 := by
    intro ac hac
    rcases List.mem_map.mp hac with ⟨n, _, rfl⟩
    rfl
  have c6 : ∀ ac ∈ bCreateCands beh D, callRank ac.2 = 6 := by
    intro ac hac
    rcases List.mem_map.mp hac with ⟨t, _, rfl⟩
    rfl
  have c7 : ∀ ac ∈ bDeleteCands beh D, callRank ac.2 = 7 := by
    intro ac hac
    rw [bDeleteCands_eq] at hac
    rcases List.mem_map.mp hac with ⟨t, _, rfl⟩
    rfl
  have hconstpw : ∀ (l : List Call) (r : Nat), (∀ c ∈ l, callRank c = r) →
      List.Pairwise (fun a b => callRank a ≤ callRank b) l := by
    intro l r h
    refine List.pairwise_of_forall_mem_list ?_
    intro a ha b hb
    rw [h a ha, h b hb]
  have happ : ∀ (l1 l2 : List Call),
      List.Pairwise (fun a b => callRank a ≤ callRank b) l1 →
      List.Pairwise (fun a b => callRank a ≤ callRank b) l2 →
      (∀ a ∈ l1, ∀ b ∈ l2, callRank a ≤ callRank b) →
      List.Pairwise (fun a b => callRank a ≤ callRank b) (l1 ++ l2) :=
    fun l1 l2 h1 h2 h3 => List.pairwise_append.mpr ⟨h1, h2, h3⟩
  have hbound : ∀ (l1 l2 : List Call) (r1 r2 : Nat), r1 ≤ r2 →
      (∀ c ∈ l1, callRank c ≤ r1) → (∀ c ∈ l2, callRank c = r2) →
      ∀ c ∈ l1 ++ l2, callRank c ≤ r2 := by
    intro l1 l2 r1 r2 hr h1 h2 c hc
    rcases List.mem_append.mp hc with hc | hc
    · exact le_trans (h1 c hc) hr
    · rw [h2 c hc]
  have r2 := hphase (exCreateCands beh D) 2 c2
  have r3 := hphase (exDeleteCands beh D) 3 c3
  have r4 := hphase (qCreateCands beh D) 4 c4
  have r5 := hphase (qDeleteCands beh D) 5 c5
  have r6 := hphase (bCreateCands beh D) 6 c6
  have r7 := hphase (bDeleteCands beh D) 7 c7
  have hb1 : ∀ c ∈ snapshotTraceOf beh, callRank c ≤ 1 :=
    fun c hc => le_of_eq (hsnap c hc)
  have hb2 := hbound _ _ 1 2 (by omega) hb1 r2
  have hb3 := hbound _ _ 2 3 (by omega) hb2 r3
  have hb4 := hbound _ _ 3 4 (by omega) hb3 r4
  have hb5 := hbound _ _ 4 5 (by omega) hb4 r5
  have hb6 := hbound _ _ 5 6 (by omega) hb5 r6
  have pw1 := hconstpw _ 1 hsnap
  have pw2 := happ _ _ pw1 (hconstpw _ 2 r2)
    (fun a ha b hb => by rw [hsnap a ha, r2 b hb]; omega)
  have pw3 := happ _ _ pw2 (hconstpw _ 3 r3)
    (fun a ha b hb => by rw [r3 b hb]; exact le_trans (hb2 a ha) (by omega))
  have pw4 := happ _ _ pw3 (hconstpw _ 4 r4)
    (fun a ha b hb => by rw [r4 b hb]; exact le_trans (hb3 a ha) (by omega))
  have pw5 := happ _ _ pw4 (hconstpw _ 5 r5)
    (fun a ha b hb => by rw [r5 b hb]; exact le_trans (hb4 a ha) (by omega))
  have pw6 := happ _ _ pw5 (hconstpw _ 6 r6)
    (fun a ha b hb => by rw [r6 b hb]; exact le_trans (hb5 a ha) (by omega))
  have pw7 := happ _ _ pw6 (hconstpw _ 7 r7)
    (fun a ha b hb => by rw [r7 b hb]; exact le_trans (hb6 a ha) (by omega))
  have hPW : List.Pairwise (fun a b => callRank a ≤ callRank b)
      (reconcileTopology false false (Except.ok D) beh dryRun).2.2 := by
    have htr : (reconcileTopology false false (Except.ok D) beh dryRun).2.2
        = Call.loadTopology :: (snapshotTraceOf beh
            ++ phaseTrace dryRun (exCreateCands beh D)
            ++ phaseTrace dryRun (exDeleteCands beh D)
            ++ phaseTrace dryRun (qCreateCands beh D)
            ++ phaseTrace dryRun (qDeleteCands beh D)
            ++ phaseTrace dryRun (bCreateCands beh D)
            ++ phaseTrace dryRun (bDeleteCands beh D)) := rfl
    rw [htr]
    exact List.pairwise_cons.mpr ⟨fun b _ => Nat.zero_le _, pw7⟩
  refine ⟨hPW, ?_⟩
  intro i j hdi hbj
  rcases Nat.lt_trichotomy i.val j.val with hlt | heq | hgt
  · exact hlt
  · exfalso
    have hij : i = j := Fin.ext heq
    rw [hij] at hdi
    rw [declQueue_not_bindQueue hdi] at hbj
    exact Bool.false_ne_true hbj
  · exfalso
    have := List.pairwise_iff_get.mp hPW j i hgt
    rw [callRank_of_declQueue hdi, callRank_of_bindQueue hbj] at this
    omega

/-- C9 witness: monotone phase ranks on the concrete witness pass. -/
theorem C9_phase_order_witness :
    List.Pairwise (fun a b => callRank a ≤ callRank b) wRun.2.2 :=
  (C9_phase_order (behOfBroker wA) wD false).1

/-- C10: nil-argument and load-failure safety. With a nil provider or nil
repository the engine returns the empty result together with an error and
issues no store read and no provider call; when loading the desired topology
fails, it returns the empty result and an error after the store read alone,
leaving any broker state untouched. -/
theorem C10_nil_guards (beh : Behavior) (loadRes : Except String Topology) (dryRun : Bool) :
    (∀ repoNil : Bool, reconcileTopology true repoNil loadRes beh dryRun
      = (emptyResult, some "queue provider is nil", [])) ∧
    (reconcileTopology false true loadRes beh dryRun
      = (emptyResult, some "repository is nil", [])) ∧
    (∀ m, reconcileTopology false false (Except.error m) beh dryRun
        = (emptyResult, some ("failed to load expected topology: " ++ m),
            [Call.loadTopology]) ∧
      (∀ c ∈ (reconcileTopology false false (Except.error m) beh dryRun).2.2,
        c.isProvider = false) ∧
      (∀ b : Broker,
        brokerAfter b (reconcileTopology false false (Except.error m) beh dryRun).2.2
          = b)) := by
  refine ⟨fun repoNil => rfl, rfl, fun m => ⟨rfl, ?_, fun b => rfl⟩⟩
  intro c hc
  have hc2 : c ∈ [Call.loadTopology] := hc
  rw [List.mem_singleton] at hc2
  subst hc2
  rfl

/-- C10 witness: the guards evaluated at concrete arguments. -/
theorem C10_nil_guards_witness :
    reconcileTopology true false (Except.ok wD) (behOfBroker wA) false
      = (emptyResult, some "queue provider is nil", []) ∧
    reconcileTopology false true (Except.ok wD) (behOfBroker wA) false
      = (emptyResult, some "repository is nil", []) ∧
    reconcileTopology false false (Except.error "db down") (behOfBroker wA) false
      = (emptyResult, some ("failed to load expected topology: " ++ "db down"),
          [Call.loadTopology]) := by
  have h := C10_nil_guards (behOfBroker wA) (Except.ok wD) false
  have h2 := C10_nil_guards (behOfBroker wA) (Except.error "db down") false
  exact ⟨h.1 false, h.2.1, ((C10_nil_guards (behOfBroker wA)
    (Except.error "db down") false).2.2 "db down").1⟩

end QueueManager
